import Mathlib

/-!
Verification development for the documentation-ingestion / RAG backend
(chunking, embedding, vector storage, validation, answer endpoint).

Python strings are modelled as lists of characters (`Str`), Python `int`
as `Int`, floats that only ever hold exact configuration fractions as `ℚ`,
and embedding vectors as lists of rationals.  Network collaborators
(embedding provider, vector store client, completion provider, hashing
primitives) are parameters of the definitions that use them.  Loops whose
termination is part of what is being verified are given an explicit fuel
argument; `none` means the loop performed more iterations than the fuel
allows (for every fuel), i.e. it does not terminate.
-/

/-- Python strings, modelled as their character sequences. -/
abbrev Str := List Char

/-- Embedding vectors (Python lists of floats, modelled over ℚ). -/
abbrev Vec := List ℚ

/-- Whitespace characters recognised by Python's str.split() / str.strip()
(ASCII subset; the sources only ever contain ASCII whitespace). -/
def pyIsSpace (c : Char) : Bool :=
  c = ' ' || c = '\t' || c = '\n' || c = '\r' || c = Char.ofNat 11 || c = Char.ofNat 12

/-- Python str.strip(): drop leading and trailing whitespace. -/
def pyStrip (s : Str) : Str :=
  ((s.dropWhile pyIsSpace).reverse.dropWhile pyIsSpace).reverse

/-- Helper for `pySplitWs`: scans the string, `acc` holds the reversed
current word. -/
def wordsAux : Str → Str → List Str
  | [], acc => if acc.isEmpty then [] else [acc.reverse]
  | c :: cs, acc =>
    if pyIsSpace c then
      if acc.isEmpty then wordsAux cs [] else acc.reverse :: wordsAux cs []
    else
      wordsAux cs (c :: acc)

/-- Python str.split() with no separator: split on whitespace runs,
dropping empty pieces. -/
def pySplitWs (s : Str) : List Str := wordsAux s []

/-- Python sep.join(xs). -/
def pyJoin (sep : Str) : List Str → Str
  | [] => []
  | [x] => x
  | x :: y :: xs => x ++ sep ++ pyJoin sep (y :: xs)

/-- Contiguous slice of a list between two (already clamped) indices. -/
def sliceNat (l : List α) (a b : Nat) : List α := (l.drop a).take (b - a)

/-- Resolution of a Python slice endpoint against a list of length `n`:
negative indices count from the end (clamped at 0), nonnegative ones are
clamped at `n`. -/
def pySliceIdx (n : Nat) (i : Int) : Nat :=
  if i < 0 then n - (-i).toNat else min i.toNat n

/-- Python step-1 slice l[a:b] with full negative-index semantics. -/
def pySlice (l : List α) (a b : Int) : List α :=
  sliceNat l (pySliceIdx l.length a) (pySliceIdx l.length b)

/-- Python int() applied to an exact rational: truncation toward zero
(the numerator/denominator representation is reduced with positive
denominator, and Int.tdiv truncates toward zero). -/
def ratTrunc (q : ℚ) : Int := q.num.tdiv q.den

/-- Python int(n * frac) for a count n and an exact fraction frac,
computed on the numerator/denominator representation (this equals
ratTrunc ((n : ℚ) * frac), and ⌊(n : ℚ) * frac⌋ when 0 ≤ frac, see
pyIntTimes_eq_floor). -/
def pyIntTimes (n : Nat) (frac : ℚ) : Int :=
  ((n : Int) * frac.num).tdiv (frac.den : Int)

/-- Word characters of the regex class \w (ASCII subset). -/
def pyIsWordChar (c : Char) : Bool := c.isAlphanum || c = '_'

/-- Bounded lookup used by the sentence-boundary test: character at signed
position `j` satisfies `p` (false when out of range). -/
def lookIs (t : Str) (j : Int) (p : Char → Bool) : Bool :=
  if j < 0 then false
  else match t[j.toNat]? with
    | some c => p c
    | none => false

/-!
ChunkBuilder (utils/chunker.py).  `ContentChunk` mirrors the dataclass;
`created_at` (a wall-clock timestamp in the source) is threaded in as the
parameter `now`, and the md5-based 8-hex-character content hash is an
abstract parameter `md5hex8`.
-/

structure ContentChunk where
  id : Str
  content_id : Str
  chunk_text : Str
  chunk_index : Nat
  token_count : Nat
  section_title : Str
  hierarchy_path : Str
  overlap_with_next : Int
  created_at : Str
  url : Str
deriving DecidableEq

/-- The sentence-boundary regex of _split_into_sentences: a whitespace
character preceded by one of . ? !, not preceded by the 4-character
pattern w.w&lt;any&gt; (any = any char except newline) and not preceded by
&lsqb;A-Z&rsqb;&lsqb;a-z&rsqb;. -/
def isSentenceBoundary (t : Str) (i : Nat) : Bool :=
  let j : Int := (i : Int)
  lookIs t j pyIsSpace
  && lookIs t (j - 1) (fun c => c = '.' || c = '?' || c = '!')
  && !(lookIs t (j - 4) pyIsWordChar && lookIs t (j - 3) (fun c => c = '.')
        && lookIs t (j - 2) pyIsWordChar && lookIs t (j - 1) (fun c => c ≠ '\n'))
  && !(lookIs t (j - 3) Char.isUpper && lookIs t (j - 2) Char.isLower
        && lookIs t (j - 1) (fun c => c = '.'))

/-- Cut `t` at the given (sorted) delimiter positions, dropping the
one-character delimiters, as re.split does. -/
def splitAtPositions (t : Str) (start : Nat) : List Nat → List Str
  | [] => [sliceNat t start t.length]
  | p :: ps => sliceNat t start p :: splitAtPositions t (p + 1) ps

/-- _split_into_sentences: regex split, then strip every piece and keep
the nonempty ones. -/
def split_into_sentences (t : Str) : List Str :=
  (((splitAtPositions t 0 ((List.range t.length).filter (isSentenceBoundary t))).map
      pyStrip).filter (fun s => !s.isEmpty))

/-- The sliding-window loop of chunk_text (and of
chunk_with_sliding_window, which has the same control flow over words):
from window start `s` it takes the window &lsqb;s, min(s+size, n)), skips it
when its joined text strips to empty (advancing to the window end), and
otherwise emits it and advances to end − ov (or to end when the end has
reached n).  Returns the emitted windows as raw Python indices; `none`
means the loop did not finish within `fuel` iterations. -/
def chunkWindows (sents : List Str) (size : Nat) (ov : Int) : Nat → Int → Option (List (Int × Int))
  | 0, s => if (sents.length : Int) ≤ s then some [] else none
  | fuel + 1, s =>
    if (sents.length : Int) ≤ s then some []
    else
      let e : Int := min (s + (size : Int)) (sents.length : Int)
      if (pyStrip (pyJoin [' '] (pySlice sents s e))).isEmpty then
        chunkWindows sents size ov fuel e
      else
        (chunkWindows sents size ov fuel (if e < (sents.length : Int) then e - ov else e)).map
          (fun ws => (s, e) :: ws)

/-- overlap_sentences = int(len(sentences) * self.overlap). -/
def overlap_sentences (n : Nat) (frac : ℚ) : Int := pyIntTimes n frac

/-- Text of a window: ' '.join(sentences&lsqb;start:end&rsqb;).strip(). -/
def windowText (sents : List Str) (w : Int × Int) : Str :=
  pyStrip (pyJoin [' '] (pySlice sents w.1 w.2))

/-- The chunk built by chunk_text for one emitted window. -/
def mkChunk (md5hex8 : Str → Str) (content_id url section_title hierarchy_path now : Str)
    (sents : List Str) (ov : Int) (w : Int × Int) (idx : Nat) : ContentChunk :=
  let text := windowText sents w
  { id := content_id ++ ("_chunk_").toList ++ md5hex8 text ++ ['_'] ++ Nat.toDigits 10 idx
  , content_id := content_id
  , chunk_text := text
  , chunk_index := idx
  , token_count := (pySplitWs text).length
  , section_title := section_title
  , hierarchy_path := hierarchy_path
  , overlap_with_next :=
      if w.2 < (sents.length : Int) then min ov ((sents.length : Int) - w.2) else 0
  , created_at := now
  , url := url }

/-- Number the emitted windows: chunk_index starts at 0 and is incremented
exactly once per emitted chunk (the skip branch does not increment it). -/
def buildChunks (mk : Int × Int → Nat → ContentChunk) : Nat → List (Int × Int) → List ContentChunk
  | _, [] => []
  | i, w :: ws => mk w i :: buildChunks mk (i + 1) ws

/-- chunk_text (utils/chunker.py): empty/whitespace-only text gives &lsqb;&rsqb;,
otherwise the text is split into sentences (giving &lsqb;&rsqb; when no sentence
survives), the overlap is computed from the total sentence count, and the
sliding-window loop emits the chunks. -/
def chunk_text (md5hex8 : Str → Str) (size : Nat) (frac : ℚ) (fuel : Nat)
    (text content_id url section_title hierarchy_path now : Str) : Option (List ContentChunk) :=
  if (pyStrip text).isEmpty then some []
  else
    let sents := split_into_sentences text
    if sents.isEmpty then some []
    else
      let ov := overlap_sentences sents.length frac
      (chunkWindows sents size ov fuel 0).map
        (buildChunks (mkChunk md5hex8 content_id url section_title hierarchy_path now sents ov) 0)

/-- The chunk built by chunk_with_sliding_window for one emitted window:
the stored text is the raw join (not stripped) and token_count is the
number of words in the window. -/
def mkChunkW (md5hex8 : Str → Str) (content_id url section_title hierarchy_path now : Str)
    (words : List Str) (ovw : Int) (w : Int × Int) (idx : Nat) : ContentChunk :=
  let cwords := pySlice words w.1 w.2
  let text := pyJoin [' '] cwords
  { id := content_id ++ ("_chunk_").toList ++ md5hex8 text ++ ['_'] ++ Nat.toDigits 10 idx
  , content_id := content_id
  , chunk_text := text
  , chunk_index := idx
  , token_count := cwords.length
  , section_title := section_title
  , hierarchy_path := hierarchy_path
  , overlap_with_next :=
      if w.2 < (words.length : Int) then min ovw ((words.length : Int) - w.2) else 0
  , created_at := now
  , url := url }

/-- chunk_with_sliding_window (utils/chunker.py): the word-based variant;
overlap is int(words_per_chunk * overlap), i.e. a fraction of the chunk
size, and the window loop runs over whitespace-split words. -/
def chunk_with_sliding_window (md5hex8 : Str → Str) (size : Nat) (frac : ℚ) (fuel : Nat)
    (text content_id url section_title hierarchy_path now : Str) : Option (List ContentChunk) :=
  if (pyStrip text).isEmpty then some []
  else
    let words := pySplitWs text
    if words.isEmpty then some []
    else
      let ovw := pyIntTimes size frac
      (chunkWindows words size ovw fuel 0).map
        (buildChunks (mkChunkW md5hex8 content_id url section_title hierarchy_path now words ovw) 0)

/-!
Basic facts about the Python string operations.
-/

theorem mem_dropWhile_of_not {p : α → Bool} {c : α} :
    ∀ {l : List α}, c ∈ l → p c = false → c ∈ l.dropWhile p := by
  intro l hc hp
  induction l with
  | nil => simp at hc
  | cons a l ih =>
    by_cases ha : p a
    · rw [List.dropWhile_cons_of_pos ha]
      rcases List.mem_cons.1 hc with rfl | hmem
      · rw [hp] at ha; exact absurd ha (by simp)
      · exact ih hmem
    · rw [List.dropWhile_cons_of_neg ha]
      exact hc

theorem mem_pyStrip {c : Char} {l : Str} (hc : c ∈ l) (hp : pyIsSpace c = false) :
    c ∈ pyStrip l := by
  unfold pyStrip
  rw [List.mem_reverse]
  exact mem_dropWhile_of_not (by rw [List.mem_reverse]; exact mem_dropWhile_of_not hc hp) hp

theorem dropWhile_head_false {p : α → Bool} :
    ∀ {l : List α} {c : α} {cs : List α}, l.dropWhile p = c :: cs → p c = false := by
  intro l
  induction l with
  | nil => intro c cs h; simp at h
  | cons a l ih =>
    intro c cs h
    by_cases ha : p a
    · rw [List.dropWhile_cons_of_pos ha] at h; exact ih h
    · rw [List.dropWhile_cons_of_neg ha] at h
      obtain ⟨rfl, -⟩ := List.cons.inj h
      simpa using ha

theorem pyStrip_exists_nonspace {l : Str} (h : pyStrip l ≠ []) :
    ∃ c ∈ pyStrip l, pyIsSpace c = false := by
  unfold pyStrip at h ⊢
  rcases hd : ((l.dropWhile pyIsSpace).reverse.dropWhile pyIsSpace) with _ | ⟨c, cs⟩
  · rw [hd] at h; simp at h
  · exact ⟨c, by simp [hd], dropWhile_head_false hd⟩

theorem mem_of_mem_pyStrip {c : Char} {l : Str} (h : c ∈ pyStrip l) : c ∈ l := by
  unfold pyStrip at h
  rw [List.mem_reverse] at h
  have h1 := (@List.dropWhile_sublist _ ((l.dropWhile pyIsSpace).reverse) pyIsSpace).subset h
  rw [List.mem_reverse] at h1
  exact (List.dropWhile_sublist pyIsSpace).subset h1

theorem pyStrip_eq_nil_of_all_space {l : Str} (h : ∀ c ∈ l, pyIsSpace c = true) :
    pyStrip l = [] := by
  unfold pyStrip
  have h1 : l.dropWhile pyIsSpace = [] := List.dropWhile_eq_nil_iff.2 h
  rw [h1]
  simp

theorem wordsAux_ne_nil :
    ∀ (l : Str) (acc : Str), ((∃ c ∈ l, pyIsSpace c = false) ∨ acc ≠ []) →
      wordsAux l acc ≠ [] := by
  intro l
  induction l with
  | nil =>
    intro acc h
    rcases h with ⟨c, hc, -⟩ | h
    · simp at hc
    · simp only [wordsAux]
      rw [if_neg (by simpa using h)]
      simp
  | cons a l ih =>
    intro acc h
    by_cases ha : pyIsSpace a
    · simp only [wordsAux, ha, if_pos]
      by_cases hacc : acc.isEmpty
      · rw [if_pos hacc]
        apply ih
        left
        rcases h with ⟨c, hc, hcp⟩ | h
        · rcases List.mem_cons.1 hc with rfl | hmem
          · rw [hcp] at ha; simp at ha
          · exact ⟨c, hmem, hcp⟩
        · exact absurd (List.isEmpty_iff.1 hacc) h
      · rw [if_neg hacc]
        simp
    · simp only [wordsAux, if_neg ha]
      exact ih (a :: acc) (Or.inr (by simp))

theorem pySplitWs_ne_nil {l : Str} (h : ∃ c ∈ l, pyIsSpace c = false) :
    pySplitWs l ≠ [] :=
  wordsAux_ne_nil l [] (Or.inl h)

theorem mem_pyJoin_of_mem {sep : Str} {c : Char} :
    ∀ {xs : List Str} {x : Str}, x ∈ xs → c ∈ x → c ∈ pyJoin sep xs := by
  intro xs
  induction xs with
  | nil => intro x hx; simp at hx
  | cons a l ih =>
    intro x hx hc
    cases l with
    | nil =>
      simp only [List.mem_singleton] at hx
      subst hx
      simpa [pyJoin] using hc
    | cons b t =>
      simp only [pyJoin, List.append_assoc, List.mem_append]
      rcases List.mem_cons.1 hx with rfl | hmem
      · exact Or.inl hc
      · exact Or.inr (Or.inr (ih hmem hc))

theorem windowText_ne_nil_of_clean {sents : List Str} {w : Int × Int}
    (x : Str) (hx : x ∈ pySlice sents w.1 w.2) (c : Char) (hc : c ∈ x)
    (hp : pyIsSpace c = false) : ¬(windowText sents w).isEmpty := by
  have hj : c ∈ pyJoin [' '] (pySlice sents w.1 w.2) := mem_pyJoin_of_mem hx hc
  have hs : c ∈ windowText sents w := mem_pyStrip hj hp
  intro hemp
  rw [List.isEmpty_iff.1 hemp] at hs
  simp at hs

theorem wordsAux_append {w : Str} (hw : ∀ c ∈ w, pyIsSpace c = false) :
    ∀ (r acc : Str), wordsAux (w ++ r) acc = wordsAux r (w.reverse ++ acc) := by
  induction w with
  | nil => intro r acc; simp
  | cons a l ih =>
    intro r acc
    have ha : pyIsSpace a = false := hw a (by simp)
    simp only [List.cons_append, wordsAux, ha, Bool.false_eq_true, if_neg, if_false,
      List.append_eq]
    rw [ih (fun c hc => hw c (by simp [hc])) r (a :: acc)]
    simp

theorem pySplitWs_pyJoin {ws : List Str}
    (h : ∀ w ∈ ws, w ≠ [] ∧ ∀ c ∈ w, pyIsSpace c = false) :
    pySplitWs (pyJoin [' '] ws) = ws := by
  induction ws with
  | nil => rfl
  | cons x l ih =>
    obtain ⟨hx, hxc⟩ := h x (by simp)
    cases l with
    | nil =>
      show wordsAux x [] = [x]
      have h1 := wordsAux_append hxc [] []
      simp only [List.append_nil] at h1
      rw [h1]
      simp only [wordsAux]
      rw [if_neg (by simpa using hx)]
      simp
    | cons y t =>
      have hj : pyJoin [' '] (x :: y :: t) = x ++ (' ' :: pyJoin [' '] (y :: t)) := by
        simp [pyJoin]
      show wordsAux (pyJoin [' '] (x :: y :: t)) [] = x :: y :: t
      rw [hj, wordsAux_append hxc]
      simp only [List.append_nil, wordsAux]
      rw [if_pos (by decide), if_neg (by simpa using hx)]
      rw [show wordsAux (pyJoin [' '] (y :: t)) [] = pySplitWs (pyJoin [' '] (y :: t)) from rfl]
      rw [ih (fun w hw => h w (by simp [hw]))]
      simp

theorem mem_wordsAux_clean :
    ∀ (l : Str) (acc : Str), (∀ c ∈ acc, pyIsSpace c = false) →
      ∀ w ∈ wordsAux l acc, w ≠ [] ∧ ∀ c ∈ w, pyIsSpace c = false := by
  intro l
  induction l with
  | nil =>
    intro acc hacc w hw
    simp only [wordsAux] at hw
    by_cases h : acc.isEmpty
    · rw [if_pos h] at hw; simp at hw
    · rw [if_neg h] at hw
      simp only [List.mem_singleton] at hw
      subst hw
      exact ⟨by simpa using h, fun c hc => hacc c (by simpa using hc)⟩
  | cons a l ih =>
    intro acc hacc w hw
    by_cases ha : pyIsSpace a
    · simp only [wordsAux, ha, if_pos] at hw
      by_cases h : acc.isEmpty
      · rw [if_pos h] at hw
        exact ih [] (by simp) w hw
      · rw [if_neg h] at hw
        rcases List.mem_cons.1 hw with rfl | hmem
        · exact ⟨by simpa using h, fun c hc => hacc c (by simpa using hc)⟩
        · exact ih [] (by simp) w hmem
    · simp only [wordsAux, if_neg ha] at hw
      refine ih (a :: acc) ?_ w hw
      intro c hc
      rcases List.mem_cons.1 hc with rfl | hmem
      · simpa using ha
      · exact hacc c hmem

theorem pySplitWs_clean {l : Str} {w : Str} (hw : w ∈ pySplitWs l) :
    w ≠ [] ∧ ∀ c ∈ w, pyIsSpace c = false :=
  mem_wordsAux_clean l [] (by simp) w hw

theorem mem_of_mem_sliceNat {l : List α} {a b : Nat} {x : α} (h : x ∈ sliceNat l a b) :
    x ∈ l :=
  List.drop_subset a l (List.take_subset (b - a) (l.drop a) h)

theorem mem_of_mem_pySlice {l : List α} {a b : Int} {x : α} (h : x ∈ pySlice l a b) :
    x ∈ l :=
  mem_of_mem_sliceNat h

theorem sentences_strip_nonempty {t : Str} :
    ∀ s ∈ split_into_sentences t, s ≠ [] ∧ ∃ c ∈ s, pyIsSpace c = false := by
  intro s hs
  unfold split_into_sentences at hs
  obtain ⟨hne, hmem⟩ : ¬s.isEmpty ∧ s ∈ (splitAtPositions t 0 _).map pyStrip := by
    have := List.mem_filter.1 hs
    exact ⟨by simpa using this.2, this.1⟩
  obtain ⟨seg, -, rfl⟩ := List.mem_map.1 hmem
  have hne' : pyStrip seg ≠ [] := by simpa using hne
  exact ⟨hne', pyStrip_exists_nonspace hne'⟩

theorem mem_splitAtPositions_subset {t : Str} :
    ∀ (ps : List Nat) (start : Nat) (seg : Str), seg ∈ splitAtPositions t start ps →
      ∀ c ∈ seg, c ∈ t := by
  intro ps
  induction ps with
  | nil =>
    intro start seg hseg c hc
    simp only [splitAtPositions, List.mem_singleton] at hseg
    subst hseg
    exact mem_of_mem_sliceNat hc
  | cons p pt ih =>
    intro start seg hseg c hc
    rcases List.mem_cons.1 hseg with rfl | hmem
    · exact mem_of_mem_sliceNat hc
    · exact ih (p + 1) seg hmem c hc

theorem split_into_sentences_of_strip_nil {t : Str} (h : pyStrip t = []) :
    split_into_sentences t = [] := by
  have hall : ∀ c ∈ t, pyIsSpace c = true := by
    intro c hc
    by_contra hns
    exact absurd h (by
      have : c ∈ pyStrip t := mem_pyStrip hc (by simpa using hns)
      intro hnil
      rw [hnil] at this
      simp at this)
  unfold split_into_sentences
  rw [List.filter_eq_nil_iff]
  intro s hs
  obtain ⟨seg, hseg, rfl⟩ := List.mem_map.1 hs
  have : pyStrip seg = [] :=
    pyStrip_eq_nil_of_all_space (fun c hc =>
      hall c (mem_splitAtPositions_subset _ _ _ hseg c hc))
  simp [this]

/-!
Structural facts about the window loop and chunk construction.
-/

theorem chunkWindows_mem_guard {sents : List Str} {size : Nat} {ov : Int} :
    ∀ (fuel : Nat) (s : Int) (ws : List (Int × Int)),
      chunkWindows sents size ov fuel s = some ws →
      ∀ w ∈ ws, (pyStrip (pyJoin [' '] (pySlice sents w.1 w.2))).isEmpty = false := by
  intro fuel
  induction fuel with
  | zero =>
    intro s ws h w hw
    simp only [chunkWindows] at h
    by_cases hc : (sents.length : Int) ≤ s
    · rw [if_pos hc] at h
      obtain rfl : ([] : List (Int × Int)) = ws := Option.some.inj h
      simp at hw
    · rw [if_neg hc] at h; exact absurd h (by simp)
  | succ fuel ih =>
    intro s ws h w hw
    simp only [chunkWindows] at h
    by_cases hc : (sents.length : Int) ≤ s
    · rw [if_pos hc] at h
      obtain rfl : ([] : List (Int × Int)) = ws := Option.some.inj h
      simp at hw
    · rw [if_neg hc] at h
      by_cases hemp :
          (pyStrip (pyJoin [' ']
            (pySlice sents s (min (s + (size : Int)) (sents.length : Int))))).isEmpty
      · rw [if_pos hemp] at h
        exact ih _ ws h w hw
      · rw [if_neg hemp] at h
        obtain ⟨ws', hrec, rfl⟩ := Option.map_eq_some'.1 h
        rcases List.mem_cons.1 hw with rfl | hmem
        · simpa using hemp
        · exact ih _ ws' hrec w hmem

theorem length_buildChunks (mk : Int × Int → Nat → ContentChunk) :
    ∀ (i : Nat) (ws : List (Int × Int)), (buildChunks mk i ws).length = ws.length := by
  intro i ws
  induction ws generalizing i with
  | nil => rfl
  | cons w ws ih => simp [buildChunks, ih]

theorem buildChunks_map_index (mk : Int × Int → Nat → ContentChunk)
    (hmk : ∀ w j, (mk w j).chunk_index = j) :
    ∀ (i : Nat) (ws : List (Int × Int)),
      (buildChunks mk i ws).map ContentChunk.chunk_index = List.range' i ws.length := by
  intro i ws
  induction ws generalizing i with
  | nil => rfl
  | cons w ws ih =>
    simp only [buildChunks, List.map_cons, hmk, List.length_cons, List.range'_succ]
    rw [ih (i + 1)]

theorem mem_buildChunks (mk : Int × Int → Nat → ContentChunk) :
    ∀ (i : Nat) (ws : List (Int × Int)) (c : ContentChunk),
      c ∈ buildChunks mk i ws → ∃ w j, w ∈ ws ∧ c = mk w j := by
  intro i ws
  induction ws generalizing i with
  | nil => intro c hc; simp [buildChunks] at hc
  | cons w ws ih =>
    intro c hc
    rcases List.mem_cons.1 hc with rfl | hmem
    · exact ⟨w, i, by simp, rfl⟩
    · obtain ⟨w', j, hw', rfl⟩ := ih (i + 1) c hmem
      exact ⟨w', j, by simp [hw'], rfl⟩

theorem windowText_facts {sents : List Str} {w : Int × Int}
    (hguard : (pyStrip (pyJoin [' '] (pySlice sents w.1 w.2))).isEmpty = false) :
    windowText sents w ≠ [] ∧ ∃ c ∈ windowText sents w, pyIsSpace c = false := by
  have hne : windowText sents w ≠ [] := by
    intro hnil
    rw [show pyStrip (pyJoin [' '] (pySlice sents w.1 w.2)) = windowText sents w from rfl,
      hnil] at hguard
    simp at hguard
  exact ⟨hne, pyStrip_exists_nonspace hne⟩

/-- C10: every chunk list returned by chunk_text or chunk_with_sliding_window
has chunk_index values exactly 0,…,n−1 in order, every chunk_text nonempty
after stripping, every token_count equal to the whitespace word count of the
chunk text and at least 1, and all chunks carry the caller's content_id, url,
section_title and hierarchy_path. -/
theorem c10_chunk_invariants (md5hex8 : Str → Str) (size : Nat) (frac : ℚ) (fuel : Nat)
    (text content_id url section_title hierarchy_path now : Str) (cs : List ContentChunk)
    (h : chunk_text md5hex8 size frac fuel text content_id url section_title hierarchy_path now
          = some cs
       ∨ chunk_with_sliding_window md5hex8 size frac fuel text content_id url section_title
          hierarchy_path now = some cs) :
    cs.map ContentChunk.chunk_index = List.range cs.length
    ∧ ∀ c ∈ cs, pyStrip c.chunk_text ≠ []
        ∧ c.token_count = (pySplitWs c.chunk_text).length
        ∧ 1 ≤ c.token_count
        ∧ c.content_id = content_id ∧ c.url = url ∧ c.section_title = section_title
        ∧ c.hierarchy_path = hierarchy_path := by
  rcases h with h | h
  · simp only [chunk_text] at h
    split at h
    · obtain rfl : ([] : List ContentChunk) = cs := Option.some.inj h
      exact ⟨rfl, by simp⟩
    · split at h
      · obtain rfl : ([] : List ContentChunk) = cs := Option.some.inj h
        exact ⟨rfl, by simp⟩
      · obtain ⟨ws, hws, rfl⟩ := Option.map_eq_some'.1 h
        constructor
        · rw [buildChunks_map_index _ (fun w j => rfl) 0 ws, length_buildChunks,
            List.range_eq_range']
        · intro c hc
          obtain ⟨w, j, hwmem, rfl⟩ := mem_buildChunks _ 0 ws c hc
          have hguard := chunkWindows_mem_guard fuel 0 ws hws w hwmem
          obtain ⟨hne, cch, hcch, hcsp⟩ := windowText_facts hguard
          refine ⟨?_, rfl, ?_, rfl, rfl, rfl, rfl⟩
          · intro hnil
            have : cch ∈ pyStrip (windowText (split_into_sentences text) w) :=
              mem_pyStrip hcch hcsp
            rw [show (mkChunk md5hex8 content_id url section_title hierarchy_path now
                  (split_into_sentences text)
                  (overlap_sentences (split_into_sentences text).length frac) w j).chunk_text
                = windowText (split_into_sentences text) w from rfl] at hnil
            rw [hnil] at this
            simp at this
          · show 1 ≤ (pySplitWs (windowText (split_into_sentences text) w)).length
            have hnonnil : pySplitWs (windowText (split_into_sentences text) w) ≠ [] :=
              pySplitWs_ne_nil ⟨cch, hcch, hcsp⟩
            exact Nat.one_le_iff_ne_zero.2 (by simpa using hnonnil)
  · simp only [chunk_with_sliding_window] at h
    split at h
    · obtain rfl : ([] : List ContentChunk) = cs := Option.some.inj h
      exact ⟨rfl, by simp⟩
    · split at h
      · obtain rfl : ([] : List ContentChunk) = cs := Option.some.inj h
        exact ⟨rfl, by simp⟩
      · obtain ⟨ws, hws, rfl⟩ := Option.map_eq_some'.1 h
        constructor
        · rw [buildChunks_map_index _ (fun w j => rfl) 0 ws, length_buildChunks,
            List.range_eq_range']
        · intro c hc
          obtain ⟨w, j, hwmem, rfl⟩ := mem_buildChunks _ 0 ws c hc
          have hguard := chunkWindows_mem_guard fuel 0 ws hws w hwmem
          have hclean : ∀ x ∈ pySlice (pySplitWs text) w.1 w.2,
              x ≠ [] ∧ ∀ ch ∈ x, pyIsSpace ch = false := by
            intro x hx
            exact pySplitWs_clean (mem_of_mem_pySlice hx)
          have hround : pySplitWs (pyJoin [' '] (pySlice (pySplitWs text) w.1 w.2))
              = pySlice (pySplitWs text) w.1 w.2 := pySplitWs_pyJoin hclean
          have hslice_ne : pySlice (pySplitWs text) w.1 w.2 ≠ [] := by
            intro hnil
            rw [hnil] at hguard
            simp [pyJoin, pyStrip] at hguard
          refine ⟨?_, ?_, ?_, rfl, rfl, rfl, rfl⟩
          · show pyStrip (pyJoin [' '] (pySlice (pySplitWs text) w.1 w.2)) ≠ []
            intro hnil
            rw [hnil] at hguard
            simp at hguard
          · show (pySlice (pySplitWs text) w.1 w.2).length
                = (pySplitWs (pyJoin [' '] (pySlice (pySplitWs text) w.1 w.2))).length
            rw [hround]
          · show 1 ≤ (pySlice (pySplitWs text) w.1 w.2).length
            exact Nat.one_le_iff_ne_zero.2 (by simpa using hslice_ne)

/-- Stand-in for the abstract md5-hash parameter in concrete evaluations. -/
def hashW : Str → Str := fun _ => ['h']

/-- Concrete 4-sentence sample text used by several concrete evaluations. -/
def textW : Str := ("A. B. C. D.").toList

theorem c10_chunk_invariants_witness :
    ∃ cs, (chunk_text hashW 2 (mkRat 0 1) 3 textW (("cid").toList) (("u").toList) [] [] [] = some cs
       ∨ chunk_with_sliding_window hashW 2 (mkRat 0 1) 3 textW (("cid").toList) (("u").toList) [] [] []
          = some cs)
    ∧ (cs.map ContentChunk.chunk_index = List.range cs.length
       ∧ ∀ c ∈ cs, pyStrip c.chunk_text ≠ []
          ∧ c.token_count = (pySplitWs c.chunk_text).length
          ∧ 1 ≤ c.token_count
          ∧ c.content_id = ("cid").toList ∧ c.url = ("u").toList ∧ c.section_title = []
          ∧ c.hierarchy_path = []) := by
  refine ⟨[ContentChunk.mk (("cid_chunk_h_0").toList) (("cid").toList) (("A. B.").toList)
      0 2 [] [] 0 [] (("u").toList),
    ContentChunk.mk (("cid_chunk_h_1").toList) (("cid").toList) (("C. D.").toList)
      1 2 [] [] 0 [] (("u").toList)], Or.inl (by decide),
    c10_chunk_invariants hashW 2 (mkRat 0 1) 3 textW (("cid").toList) (("u").toList) [] [] [] _
      (Or.inl (by decide))⟩

theorem pyIntTimes_eq_floor (n : Nat) (frac : ℚ) (h : 0 ≤ frac) :
    pyIntTimes n frac = ⌊(n : ℚ) * frac⌋ := by
  have hnum : 0 ≤ frac.num := Rat.num_nonneg.2 h
  have h1 : ((n : Int) * frac.num).tdiv (frac.den : Int)
      = ((n : Int) * frac.num) / (frac.den : Int) :=
    Int.tdiv_eq_ediv (mul_nonneg (Int.natCast_nonneg n) hnum) (Int.natCast_nonneg frac.den)
  rw [pyIntTimes, h1]
  rw [show (n : ℚ) * frac = (((n : Int) * frac.num : Int) : ℚ) / ((frac.den : ℕ) : ℚ) by
    conv_lhs => rw [← Rat.num_div_den frac]
    push_cast
    ring]
  rw [Rat.floor_intCast_div_natCast]

/-- C2: the chunker computes the overlap as ⌊totalSentenceCount ·
overlapFraction⌋ — a fraction of the whole document's sentence count, not
of the chunk size — and one emitting iteration of the window loop recurses
with the next window start set to currentEnd − overlapSentences when
currentEnd has not reached the end of the sentence list, else to
currentEnd. -/
theorem c2_overlap_and_window_step
    (n : Nat) (frac : ℚ) (hfrac : 0 ≤ frac)
    (sents : List Str) (size : Nat) (ov : Int) (fuel : Nat) (s : Int)
    (hs : s < (sents.length : Int))
    (hne : (pyStrip (pyJoin [' ']
        (pySlice sents s (min (s + (size : Int)) (sents.length : Int))))).isEmpty = false) :
    overlap_sentences n frac = ⌊(n : ℚ) * frac⌋
    ∧ chunkWindows sents size ov (fuel + 1) s =
        (chunkWindows sents size ov fuel
          (if min (s + (size : Int)) (sents.length : Int) < (sents.length : Int)
            then min (s + (size : Int)) (sents.length : Int) - ov
            else min (s + (size : Int)) (sents.length : Int))).map
          (fun ws => (s, min (s + (size : Int)) (sents.length : Int)) :: ws) := by
  refine ⟨pyIntTimes_eq_floor n frac hfrac, ?_⟩
  simp only [chunkWindows]
  rw [if_neg (not_le.2 hs), if_neg (by rw [hne]; simp)]

/-- Concrete witness for c2_overlap_and_window_step. -/
theorem c2_overlap_and_window_step_witness :
    overlap_sentences 4 (mkRat 1 2) = ⌊((4 : Nat) : ℚ) * mkRat 1 2⌋
    ∧ chunkWindows (split_into_sentences textW) 2 1 (2 + 1) 0 =
        (chunkWindows (split_into_sentences textW) 2 1 2
          (if min ((0 : Int) + ((2 : Nat) : Int)) ((split_into_sentences textW).length : Int)
              < ((split_into_sentences textW).length : Int)
            then min ((0 : Int) + ((2 : Nat) : Int)) ((split_into_sentences textW).length : Int)
                - 1
            else min ((0 : Int) + ((2 : Nat) : Int))
                ((split_into_sentences textW).length : Int))).map
          (fun ws =>
            ((0 : Int), min ((0 : Int) + ((2 : Nat) : Int))
              ((split_into_sentences textW).length : Int)) :: ws) :=
  c2_overlap_and_window_step 4 (mkRat 1 2)
    (by rw [Rat.mkRat_eq_div]; norm_num)
    (split_into_sentences textW) 2 1 2 0 (by decide) (by decide)

/-- The four one-letter sentences of the text textW = "A. B. C. D.". -/
def c3sents : List Str := [("A.").toList, ("B.").toList, ("C.").toList, ("D.").toList]

theorem c3_loop_diverges : ∀ fuel, chunkWindows c3sents 2 2 fuel 0 = none := by
  intro fuel
  induction fuel with
  | zero => decide
  | succ fuel ih =>
    have hstep : chunkWindows c3sents 2 2 (fuel + 1) 0
        = (chunkWindows c3sents 2 2 fuel 0).map
            (fun ws => ((0 : Int), (2 : Int)) :: ws) := by
      simp only [chunkWindows]
      rw [if_neg (by decide), if_neg (by decide)]
      rw [show (if min ((0 : Int) + ((2 : Nat) : Int)) ((c3sents.length : Nat) : Int)
              < ((c3sents.length : Nat) : Int)
            then min ((0 : Int) + ((2 : Nat) : Int)) ((c3sents.length : Nat) : Int) - 2
            else min ((0 : Int) + ((2 : Nat) : Int)) ((c3sents.length : Nat) : Int))
          = (0 : Int) by decide]
      rw [show min ((0 : Int) + ((2 : Nat) : Int)) ((c3sents.length : Nat) : Int) = (2 : Int)
          by decide]
    rw [hstep, ih]
    rfl

/-- C3 (code bug): on the text "A. B. C. D." with chunkSize = 2 and
overlap = 0.5, overlapSentences = ⌊4 · 0.5⌋ = 2 = chunkSize, so the window
loop of chunk_text never advances (currentStart stays 0) and the function
does not terminate for any iteration bound, instead of returning a finite
list of chunks. -/
theorem c3_chunk_text_diverges (md5hex8 : Str → Str) (cid url st hp now : Str) :
    ∀ fuel, chunk_text md5hex8 2 (mkRat 1 2) fuel textW cid url st hp now = none := by
  intro fuel
  have hsents : split_into_sentences textW = c3sents := by decide
  simp only [chunk_text, hsents]
  rw [if_neg (by decide), if_neg (by decide)]
  rw [show overlap_sentences c3sents.length (mkRat 1 2) = 2 from by decide]
  rw [c3_loop_diverges fuel]
  rfl

/-!
Chunk coverage: the non-overlapping portion of each emitted window
(its sentence indices minus those shared with the previously emitted
window), and their concatenation.
-/

/-- Sentence indices of window `w` that are not covered by the previously
emitted window (index intervals are clamped the way Python slices are). -/
def portionIdx (n : Nat) (prev : Option (Int × Int)) (w : Int × Int) : List Nat :=
  let a := pySliceIdx n w.1
  let b := pySliceIdx n w.2
  match prev with
  | none => List.range' a (b - a)
  | some p =>
    (List.range' a (b - a)).filter
      (fun i => !(decide (pySliceIdx n p.1 ≤ i) && decide (i < pySliceIdx n p.2)))

/-- Concatenation of the non-overlapping portions of a window list. -/
def portionsIdx (n : Nat) : Option (Int × Int) → List (Int × Int) → List Nat
  | _, [] => []
  | prev, w :: ws => portionIdx n prev w ++ portionsIdx n (some w) ws

/-- The sentences occurring in the concatenated non-overlapping portions. -/
def portionSentences (sents : List Str) (ws : List (Int × Int)) : List Str :=
  (portionsIdx sents.length none ws).filterMap (fun i => sents[i]?)

theorem pySliceIdx_natCast (n m : Nat) : pySliceIdx n ((m : Nat) : Int) = min m n := by
  simp [pySliceIdx]

theorem pySlice_natCast (l : List α) (s e : Nat) (hs : s ≤ l.length) (he : e ≤ l.length) :
    pySlice l ((s : Nat) : Int) ((e : Nat) : Int) = sliceNat l s e := by
  simp [pySlice, pySliceIdx_natCast, min_eq_left hs, min_eq_left he]

theorem slice_guard_false {sents : List Str}
    (hclean : ∀ x ∈ sents, ∃ c ∈ x, pyIsSpace c = false) {s e : Nat}
    (hse : s < e) (hen : e ≤ sents.length) :
    (pyStrip (pyJoin [' '] (pySlice sents ((s : Nat) : Int) ((e : Nat) : Int)))).isEmpty
      = false := by
  have hslice : pySlice sents ((s : Nat) : Int) ((e : Nat) : Int) = sliceNat sents s e :=
    pySlice_natCast sents s e (by omega) hen
  have hlen : 0 < (sliceNat sents s e).length := by
    simp only [sliceNat, List.length_take, List.length_drop]
    omega
  obtain ⟨x, hx⟩ := List.exists_mem_of_length_pos hlen
  obtain ⟨c, hc, hcp⟩ := hclean x (mem_of_mem_sliceNat hx)
  have h := @windowText_ne_nil_of_clean sents
    ((((s : Nat) : Int)), (((e : Nat) : Int))) x (by rw [hslice]; exact hx) c hc hcp
  simpa using h

theorem filterMap_getElem_range (l : List α) :
    (List.range l.length).filterMap (fun i => l[i]?) = l := by
  induction l with
  | nil => rfl
  | cons a t ih =>
    rw [List.length_cons, List.range_succ_eq_map, List.filterMap_cons, List.filterMap_map]
    simp only [List.getElem?_cons_zero]
    have hfun : ((fun i => (a :: t)[i]?) ∘ Nat.succ) = (fun i => t[i]?) := by
      funext i
      simp
    rw [hfun, ih]

theorem chunkCoverAux {sents : List Str} {size ov : Nat}
    (hclean : ∀ x ∈ sents, ∃ c ∈ x, pyIsSpace c = false)
    (hsz : 1 ≤ size) (hov : ov < size) :
    ∀ (fuel : Nat) (s pa pe : Nat) (ws : List (Int × Int)),
      chunkWindows sents size ((ov : Nat) : Int) fuel ((s : Nat) : Int) = some ws →
      pa ≤ s → pe = s + ov → pe ≤ sents.length →
      portionsIdx sents.length (some (((pa : Nat) : Int), ((pe : Nat) : Int))) ws
        = List.range' pe (sents.length - pe) := by
  intro fuel
  induction fuel with
  | zero =>
    intro s pa pe ws h hpa hpe hle
    simp only [chunkWindows] at h
    by_cases hns : (sents.length : Int) ≤ ((s : Nat) : Int)
    · rw [if_pos hns] at h
      obtain rfl : ([] : List (Int × Int)) = ws := Option.some.inj h
      have hsn : sents.length ≤ s := by exact_mod_cast hns
      rw [show sents.length - pe = 0 by omega]
      simp [portionsIdx]
    · rw [if_neg hns] at h
      exact absurd h (by simp)
  | succ fuel ih =>
    intro s pa pe ws h hpa hpe hle
    simp only [chunkWindows] at h
    by_cases hns : (sents.length : Int) ≤ ((s : Nat) : Int)
    · rw [if_pos hns] at h
      obtain rfl : ([] : List (Int × Int)) = ws := Option.some.inj h
      have hsn : sents.length ≤ s := by exact_mod_cast hns
      rw [show sents.length - pe = 0 by omega]
      simp [portionsIdx]
    · rw [if_neg hns] at h
      have hsn : s < sents.length := by exact_mod_cast not_le.1 hns
      have hcast : min (((s : Nat) : Int) + ((size : Nat) : Int)) ((sents.length : Int))
          = (((min (s + size) sents.length : Nat)) : Int) := by
        push_cast
        rfl
      rw [hcast] at h
      set eN := min (s + size) sents.length with heN
      have hslt : s < eN := lt_min (by omega) hsn
      have hele : eN ≤ sents.length := min_le_right _ _
      have hg := slice_guard_false hclean hslt hele
      rw [if_neg (by simp [hg])] at h
      obtain ⟨ws', hrec, rfl⟩ := Option.map_eq_some'.1 h
      have hpe_le_e : pe ≤ eN := le_min (by omega) (by omega)
      have hhead : portionIdx sents.length (some (((pa : Nat) : Int), ((pe : Nat) : Int)))
          (((s : Nat) : Int), ((eN : Nat) : Int)) = List.range' pe (eN - pe) := by
        simp only [portionIdx, pySliceIdx_natCast]
        rw [min_eq_left (le_of_lt hsn), min_eq_left hele,
          min_eq_left (show pa ≤ sents.length by omega), min_eq_left hle]
        rw [show eN - s = (eN - pe) + (pe - s) by omega]
        rw [← List.range'_append s (pe - s) (eN - pe) 1]
        rw [show s + 1 * (pe - s) = pe by omega]
        rw [List.filter_append]
        have h1 : (List.range' s (pe - s)).filter
            (fun i => !(decide (pa ≤ i) && decide (i < pe))) = [] := by
          apply List.filter_eq_nil_iff.2
          intro i hi
          obtain ⟨h1', h2'⟩ := List.mem_range'_1.1 hi
          have hb : (decide (pa ≤ i) && decide (i < pe)) = true := by
            simp only [Bool.and_eq_true, decide_eq_true_eq]
            omega
          simp [hb]
        have h2 : (List.range' pe (eN - pe)).filter
            (fun i => !(decide (pa ≤ i) && decide (i < pe)))
            = List.range' pe (eN - pe) := by
          apply List.filter_eq_self.2
          intro i hi
          obtain ⟨h1', h2'⟩ := List.mem_range'_1.1 hi
          have hb : decide (i < pe) = false := by
            simp only [decide_eq_false_iff_not, not_lt]
            omega
          simp [hb]
        rw [h1, h2, List.nil_append]
      rw [portionsIdx, hhead]
      by_cases heq : eN < sents.length
      · have hcond : (((eN : Nat) : Int) < (sents.length : Int)) := by exact_mod_cast heq
        rw [if_pos hcond] at hrec
        have heqsz : eN = s + size := by
          rcases le_or_lt (s + size) sents.length with hc | hc
          · rw [heN, min_eq_left hc]
          · exfalso
            have h' := heq
            rw [heN, min_eq_right hc.le] at h'
            exact lt_irrefl _ h'
        have hovle : ov ≤ eN := by omega
        rw [show ((eN : Nat) : Int) - ((ov : Nat) : Int) = (((eN - ov : Nat)) : Int) by
          push_cast [hovle]; ring] at hrec
        have ihres := ih (eN - ov) s eN ws' hrec (by omega) (by omega) (by omega)
        rw [ihres]
        have hr := List.range'_append pe (eN - pe) (sents.length - eN) 1
        rw [show pe + 1 * (eN - pe) = eN by omega] at hr
        rw [hr, show sents.length - eN + (eN - pe) = sents.length - pe by omega]
      · have heqn : eN = sents.length := le_antisymm hele (not_lt.1 heq)
        rw [if_neg (by exact_mod_cast heq)] at hrec
        have hge : (sents.length : Int) ≤ ((eN : Nat) : Int) := by exact_mod_cast heqn.ge
        have hws' : ws' = [] := by
          cases fuel with
          | zero =>
            simp only [chunkWindows, if_pos hge] at hrec
            exact (Option.some.inj hrec).symm
          | succ fuel' =>
            simp only [chunkWindows, if_pos hge] at hrec
            exact (Option.some.inj hrec).symm
        subst hws'
        rw [portionsIdx, List.append_nil, heqn]

theorem chunkCover {sents : List Str} {size ov : Nat}
    (hclean : ∀ x ∈ sents, ∃ c ∈ x, pyIsSpace c = false)
    (hsz : 1 ≤ size) (hov : ov < size) :
    ∀ (fuel : Nat) (ws : List (Int × Int)),
      chunkWindows sents size ((ov : Nat) : Int) fuel 0 = some ws →
      portionsIdx sents.length none ws = List.range' 0 sents.length := by
  intro fuel ws h
  rcases Nat.eq_zero_or_pos sents.length with hn | hn
  · have hge : (sents.length : Int) ≤ (0 : Int) := by omega
    have hws : ws = [] := by
      cases fuel with
      | zero =>
        simp only [chunkWindows, if_pos hge] at h
        exact (Option.some.inj h).symm
      | succ fuel' =>
        simp only [chunkWindows, if_pos hge] at h
        exact (Option.some.inj h).symm
    subst hws
    rw [hn]
    rfl
  · cases fuel with
    | zero =>
      simp only [chunkWindows] at h
      rw [if_neg (by exact_mod_cast Nat.not_le.2 hn)] at h
      exact absurd h (by simp)
    | succ fuel =>
      simp only [chunkWindows] at h
      rw [if_neg (by exact_mod_cast Nat.not_le.2 hn)] at h
      have hcast : min ((0 : Int) + ((size : Nat) : Int)) ((sents.length : Int))
          = (((min (0 + size) sents.length : Nat)) : Int) := by
        push_cast
        rfl
      rw [hcast] at h
      set eN := min (0 + size) sents.length with heN
      have hslt : (0 : Nat) < eN := lt_min (by omega) hn
      have hele : eN ≤ sents.length := min_le_right _ _
      have hg := slice_guard_false hclean hslt hele
      rw [show ((0 : Nat) : Int) = (0 : Int) from rfl] at hg
      rw [if_neg (by simp [hg])] at h
      obtain ⟨ws', hrec, rfl⟩ := Option.map_eq_some'.1 h
      have hhead : portionIdx sents.length none ((0 : Int), ((eN : Nat) : Int))
          = List.range' 0 eN := by
        simp only [portionIdx]
        rw [show (0 : Int) = ((0 : Nat) : Int) from rfl, pySliceIdx_natCast,
          pySliceIdx_natCast, min_eq_left hele]
        simp
      rw [portionsIdx, hhead]
      by_cases heq : eN < sents.length
      · have hcond : (((eN : Nat) : Int) < (sents.length : Int)) := by exact_mod_cast heq
        rw [if_pos hcond] at hrec
        have heqsz : eN = 0 + size := by
          rcases le_or_lt (0 + size) sents.length with hc | hc
          · rw [heN, min_eq_left hc]
          · exfalso
            have h' := heq
            rw [heN, min_eq_right hc.le] at h'
            exact lt_irrefl _ h'
        have hovle : ov ≤ eN := by omega
        rw [show ((eN : Nat) : Int) - ((ov : Nat) : Int) = (((eN - ov : Nat)) : Int) by
          push_cast [hovle]; ring] at hrec
        have ihres := chunkCoverAux hclean hsz hov fuel (eN - ov) 0 eN ws' hrec
          (by omega) (by omega) (by omega)
        rw [show ((0 : Nat) : Int) = (0 : Int) from rfl] at ihres
        rw [ihres]
        have hr := List.range'_append 0 eN (sents.length - eN) 1
        rw [show 0 + 1 * eN = eN by omega] at hr
        rw [hr, show sents.length - eN + eN = sents.length by omega]
      · have heqn : eN = sents.length := le_antisymm hele (not_lt.1 heq)
        rw [if_neg (by exact_mod_cast heq)] at hrec
        have hge : (sents.length : Int) ≤ ((eN : Nat) : Int) := by exact_mod_cast heqn.ge
        have hws' : ws' = [] := by
          cases fuel with
          | zero =>
            simp only [chunkWindows, if_pos hge] at hrec
            exact (Option.some.inj hrec).symm
          | succ fuel' =>
            simp only [chunkWindows, if_pos hge] at hrec
            exact (Option.some.inj hrec).symm
        subst hws'
        rw [portionsIdx, List.append_nil, heqn]

/-- C8 (amended): when overlapSentences < chunkSize (the non-degenerate
configurations), concatenating the non-overlapping portions of the chunks
produced by chunk_text reconstructs the original sentence sequence exactly.
(In degenerate configurations with overlapSentences ≥ chunkSize a
terminating run can repeat sentences — see c8_counterexample.) -/
theorem c8_amended_coverage
    (md5hex8 : Str → Str) (size : Nat) (frac : ℚ) (fuel : Nat)
    (text content_id url section_title hierarchy_path now : Str) (cs : List ContentChunk)
    (hsz : 1 ≤ size) (hfrac : 0 ≤ frac)
    (hov : overlap_sentences (split_into_sentences text).length frac < (size : Int))
    (h : chunk_text md5hex8 size frac fuel text content_id url section_title hierarchy_path
        now = some cs) :
    ∃ ws, chunkWindows (split_into_sentences text) size
        (overlap_sentences (split_into_sentences text).length frac) fuel 0 = some ws
      ∧ cs = buildChunks (mkChunk md5hex8 content_id url section_title hierarchy_path now
          (split_into_sentences text)
          (overlap_sentences (split_into_sentences text).length frac)) 0 ws
      ∧ portionSentences (split_into_sentences text) ws = split_into_sentences text := by
  have hclean : ∀ x ∈ split_into_sentences text, ∃ c ∈ x, pyIsSpace c = false :=
    fun x hx => (sentences_strip_nonempty x hx).2
  have hovnn : 0 ≤ overlap_sentences (split_into_sentences text).length frac := by
    unfold overlap_sentences pyIntTimes
    exact Int.tdiv_nonneg
      (mul_nonneg (Int.natCast_nonneg _) (Rat.num_nonneg.2 hfrac)) (Int.natCast_nonneg _)
  have hcastov : (((overlap_sentences (split_into_sentences text).length frac).toNat : Nat)
      : Int) = overlap_sentences (split_into_sentences text).length frac :=
    Int.toNat_of_nonneg hovnn
  have hovlt : (overlap_sentences (split_into_sentences text).length frac).toNat < size := by
    omega
  simp only [chunk_text] at h
  split at h
  · rename_i hstrip
    obtain rfl : ([] : List ContentChunk) = cs := Option.some.inj h
    have hsent : split_into_sentences text = [] :=
      split_into_sentences_of_strip_nil (by simpa using hstrip)
    refine ⟨[], ?_, rfl, ?_⟩
    · have hlen : ((split_into_sentences text).length : Int) ≤ 0 := by rw [hsent]; simp
      cases fuel <;> simp [chunkWindows, hlen]
    · rw [hsent]
      rfl
  · split at h
    · rename_i hsent0
      obtain rfl : ([] : List ContentChunk) = cs := Option.some.inj h
      have hsent : split_into_sentences text = [] := by simpa using hsent0
      refine ⟨[], ?_, rfl, ?_⟩
      · have hlen : ((split_into_sentences text).length : Int) ≤ 0 := by rw [hsent]; simp
        cases fuel <;> simp [chunkWindows, hlen]
      · rw [hsent]
        rfl
    · obtain ⟨ws, hws, rfl⟩ := Option.map_eq_some'.1 h
      refine ⟨ws, hws, rfl, ?_⟩
      have hws' := hws
      rw [← hcastov] at hws'
      have hcover := chunkCover hclean hsz hovlt fuel ws hws'
      unfold portionSentences
      rw [hcover, ← List.range_eq_range', filterMap_getElem_range]

/-- A 9-sentence text on which the degenerate overlap produces a
terminating run whose portions repeat sentences. -/
def c8text : Str := ("A. B. C. D. E. F. G. H. I.").toList

/-- C8 counterexample: with chunkSize = 5 ≥ 1 and overlap fraction
7/9 ≥ 0, chunk_text on the 9-sentence text terminates (the emitted
windows are (0,5), (3,8), (1,6), (4,9), the middle ones arising from
Python's negative-slice wraparound), but concatenating the chunks'
non-overlapping portions repeats sentences instead of reconstructing the
original sentence sequence. -/
theorem c8_counterexample :
    (1 ≤ (5 : Nat) ∧ (0 : ℚ) ≤ mkRat 7 9)
    ∧ chunkWindows (split_into_sentences c8text) 5
        (overlap_sentences (split_into_sentences c8text).length (mkRat 7 9)) 30 0
        = some [(0, 5), (3, 8), (1, 6), (4, 9)]
    ∧ (chunk_text hashW 5 (mkRat 7 9) 30 c8text (("cid").toList) (("u").toList) [] [] []
        ).isSome = true
    ∧ portionSentences (split_into_sentences c8text) [(0, 5), (3, 8), (1, 6), (4, 9)]
        ≠ split_into_sentences c8text := by
  refine ⟨⟨by norm_num, by rw [Rat.mkRat_eq_div]; norm_num⟩, by decide, by decide, by decide⟩

/-- Concrete witness for c8_amended_coverage. -/
theorem c8_amended_coverage_witness :
    ∃ ws, chunkWindows (split_into_sentences textW) 2
        (overlap_sentences (split_into_sentences textW).length (mkRat 0 1)) 3 0 = some ws
      ∧ [ContentChunk.mk (("cid_chunk_h_0").toList) (("cid").toList) (("A. B.").toList)
            0 2 [] [] 0 [] (("u").toList),
          ContentChunk.mk (("cid_chunk_h_1").toList) (("cid").toList) (("C. D.").toList)
            1 2 [] [] 0 [] (("u").toList)]
          = buildChunks (mkChunk hashW (("cid").toList) (("u").toList) [] [] []
              (split_into_sentences textW)
              (overlap_sentences (split_into_sentences textW).length (mkRat 0 1))) 0 ws
      ∧ portionSentences (split_into_sentences textW) ws = split_into_sentences textW :=
  c8_amended_coverage hashW 2 (mkRat 0 1) 3 textW (("cid").toList) (("u").toList) [] [] []
    _ (by norm_num) (by rw [Rat.mkRat_eq_div]; norm_num) (by decide) (by decide)

/-!
EmbeddingClient (utils/embedder.py).  The Cohere client is a parameter
`clientEmbed`: a call clientEmbed ts models self.client.embed(texts=ts),
returning the response's embeddings list, or none when the call raises.
-/

/-- Cohere's maximum batch size (embedder.py). -/
def max_batch_size : Nat := 96

/-- Helper for batching: the fuel is an iteration bound (list length
suffices since every step consumes at least one element for k ≥ 1). -/
def batchesOfFuel (k : Nat) : Nat → List α → List (List α)
  | _, [] => []
  | 0, _ :: _ => []
  | fuel + 1, a :: l => ((a :: l).take k) :: batchesOfFuel k fuel ((a :: l).drop k)

/-- The batches texts&lsqb;i:i+k&rsqb; for i = 0, k, 2k, … (the for-loop header
range(0, len(texts), max_batch_size) of embed_texts). -/
def batchesOf (k : Nat) (l : List α) : List (List α) := batchesOfFuel k l.length l

/-- Per-item fallback of embed_texts: each text of the failed batch is
embedded individually; a None placeholder is appended for items whose
individual call also raises, and the placeholders are dropped afterwards
(only successful embeddings are kept). -/
def single_fallback (clientEmbed : List Str → Option (List Vec)) (batch : List Str) :
    List Vec :=
  ((batch.map (fun t =>
      match clientEmbed [t] with
      | some vs => vs.map Option.some
      | none => [(Option.none : Option Vec)])).flatten).reduceOption

/-- embed_texts (utils/embedder.py): None for empty input; otherwise the
texts are processed in batches of max_batch_size, each successful batch
appending its returned vectors in order and each failed batch degrading
to the per-item fallback. -/
def embed_texts (clientEmbed : List Str → Option (List Vec)) (texts : List Str) :
    Option (List Vec) :=
  if texts.isEmpty then none
  else
    some ((batchesOf max_batch_size texts).flatMap (fun batch =>
      match clientEmbed batch with
      | some vs => vs
      | none => single_fallback clientEmbed batch))

theorem batchesOfFuel_flatten (k : Nat) (hk : 1 ≤ k) :
    ∀ (fuel : Nat) (l : List α), l.length ≤ fuel → (batchesOfFuel k fuel l).flatten = l := by
  intro fuel
  induction fuel with
  | zero =>
    intro l hl
    cases l with
    | nil => rfl
    | cons a t => simp at hl
  | succ fuel ih =>
    intro l hl
    cases l with
    | nil => rfl
    | cons a t =>
      simp only [batchesOfFuel, List.flatten_cons]
      rw [ih ((a :: t).drop k) (by
        simp only [List.length_drop, List.length_cons]
        simp only [List.length_cons] at hl
        omega)]
      exact List.take_append_drop k (a :: t)

theorem batchesOf_flatten (k : Nat) (hk : 1 ≤ k) (l : List α) :
    (batchesOf k l).flatten = l :=
  batchesOfFuel_flatten k hk l.length l le_rfl

theorem batchesOfFuel_mem_length (k : Nat) :
    ∀ (fuel : Nat) (l : List α) (b : List α), b ∈ batchesOfFuel k fuel l → b.length ≤ k := by
  intro fuel
  induction fuel with
  | zero =>
    intro l b hb
    cases l with
    | nil => simp [batchesOfFuel] at hb
    | cons a t => simp [batchesOfFuel] at hb
  | succ fuel ih =>
    intro l b hb
    cases l with
    | nil => simp [batchesOfFuel] at hb
    | cons a t =>
      rcases List.mem_cons.1 hb with rfl | hmem
      · exact List.length_take_le k (a :: t)
      · exact ih _ b hmem

theorem single_fallback_eq (clientEmbed : List Str → Option (List Vec)) (g : Str → Vec)
    (hg : ∀ ts vs, clientEmbed ts = some vs → vs = ts.map g) :
    ∀ b : List Str,
      single_fallback clientEmbed b = (b.filter (fun t => (clientEmbed [t]).isSome)).map g := by
  intro b
  induction b with
  | nil => rfl
  | cons t bs ih =>
    have hstep : single_fallback clientEmbed (t :: bs)
        = (match clientEmbed [t] with
            | some vs => vs.map Option.some
            | none => [(Option.none : Option Vec)]).reduceOption
          ++ single_fallback clientEmbed bs := by
      simp [single_fallback, List.reduceOption_append]
    rw [hstep, ih, List.filter_cons]
    rcases hcall : clientEmbed [t] with _ | vs
    · simp [hcall]
    · have hvs : vs = [g t] := hg [t] vs hcall
      subst hvs
      simp [hcall]

theorem flatMap_sublist_flatten (bs : List (List α)) (f : List α → List α)
    (hf : ∀ b ∈ bs, List.Sublist (f b) b) :
    List.Sublist (bs.flatMap f) bs.flatten := by
  induction bs with
  | nil => exact List.Sublist.refl []
  | cons b t ih =>
    simp only [List.flatMap_cons, List.flatten_cons]
    exact List.Sublist.append (hf b (by simp)) (ih (fun x hx => hf x (by simp [hx])))


/-- The texts whose embeddings embed_texts returns, in order: every text
of a batch whose batch call succeeds, and of a failed batch exactly the
texts whose individual fallback call succeeds. -/
def keptTexts (clientEmbed : List Str → Option (List Vec)) (texts : List Str) : List Str :=
  (batchesOf max_batch_size texts).flatMap (fun b =>
    match clientEmbed b with
    | some _ => b
    | none => b.filter (fun t => (clientEmbed [t]).isSome))

/-- C5: embed_texts splits the input into consecutive batches of at most
max_batch_size texts whose concatenation is the input; the output is
exactly, batch by batch in order, the vectors returned by a successful
batch call, and for a failed batch the embeddings of precisely the texts
whose individual fallback call succeeds (failed items dropped with no
placeholder); when the provider computes g on every successful call this
equals the order-preserving map of g over the kept sub-sequence of the
input texts, so the output length is at most the input length. -/
theorem c5_embed_texts_batching (clientEmbed : List Str → Option (List Vec)) (g : Str → Vec)
    (hg : ∀ ts vs, clientEmbed ts = some vs → vs = ts.map g)
    (texts : List Str) (out : List Vec)
    (hout : embed_texts clientEmbed texts = some out) :
    ((batchesOf max_batch_size texts).flatten = texts
      ∧ ∀ b ∈ batchesOf max_batch_size texts, b.length ≤ max_batch_size)
    ∧ out = (batchesOf max_batch_size texts).flatMap (fun b =>
        match clientEmbed b with
        | some vs => vs
        | none => (b.filter (fun t => (clientEmbed [t]).isSome)).map g)
    ∧ out = (keptTexts clientEmbed texts).map g
    ∧ List.Sublist (keptTexts clientEmbed texts) texts
    ∧ out.length ≤ texts.length := by
  have hjoin : (batchesOf max_batch_size texts).flatten = texts :=
    batchesOf_flatten max_batch_size (by norm_num [max_batch_size]) texts
  have hout' : out = (batchesOf max_batch_size texts).flatMap (fun batch =>
      match clientEmbed batch with
      | some vs => vs
      | none => single_fallback clientEmbed batch) := by
    simp only [embed_texts] at hout
    split at hout
    · exact absurd hout (by simp)
    · exact (Option.some.inj hout).symm
  have hfun : (fun batch =>
        match clientEmbed batch with
        | some vs => vs
        | none => single_fallback clientEmbed batch)
      = (fun b => match clientEmbed b with
          | some vs => vs
          | none => (b.filter (fun t => (clientEmbed [t]).isSome)).map g) := by
    funext b
    rcases hcall : clientEmbed b with _ | vs
    · exact single_fallback_eq clientEmbed g hg b
    · rfl
  have h2 : out = (batchesOf max_batch_size texts).flatMap (fun b =>
      match clientEmbed b with
      | some vs => vs
      | none => (b.filter (fun t => (clientEmbed [t]).isSome)).map g) := by
    rw [hout', hfun]
  have hfun2 : (fun b => match clientEmbed b with
        | some vs => vs
        | none => (b.filter (fun t => (clientEmbed [t]).isSome)).map g)
      = (fun b => (match clientEmbed b with
          | some _ => b
          | none => b.filter (fun t => (clientEmbed [t]).isSome)).map g) := by
    funext b
    rcases hcall : clientEmbed b with _ | vs
    · rfl
    · exact hg b vs hcall
  have h3 : out = (keptTexts clientEmbed texts).map g := by
    rw [h2, hfun2]
    unfold keptTexts
    rw [List.map_flatMap]
  have hsub : List.Sublist (keptTexts clientEmbed texts) texts := by
    unfold keptTexts
    conv_rhs => rw [← hjoin]
    apply flatMap_sublist_flatten
    intro b hb
    rcases hcall : clientEmbed b with _ | vs
    · exact List.filter_sublist b
    · exact List.Sublist.refl b
  refine ⟨⟨hjoin, fun b hb => batchesOfFuel_mem_length max_batch_size _ _ b hb⟩,
    h2, h3, hsub, ?_⟩
  rw [h3, List.length_map]
  exact hsub.length_le

/-- Embedding function used in concrete evaluations of the provider model. -/
def gW5 : Str → Vec := fun _ => []

/-- A provider whose batch calls fail for more than one text but whose
single-text calls succeed, computing gW5 — it exercises the per-item
fallback path. -/
def ceW5 : List Str → Option (List Vec) :=
  fun ts => if ts.length = 1 then some (ts.map gW5) else none

/-- Two-element input for the concrete embed_texts evaluation. -/
def textsW5 : List Str := [("a").toList, ("b").toList]

/-- Concrete witness for c5_embed_texts_batching: the two-text batch
call fails, both fallback calls succeed, and the output is both
embeddings in order. -/
theorem c5_embed_texts_batching_witness :
    ((batchesOf max_batch_size textsW5).flatten = textsW5
      ∧ ∀ b ∈ batchesOf max_batch_size textsW5, b.length ≤ max_batch_size)
    ∧ ([[], []] : List Vec) = (batchesOf max_batch_size textsW5).flatMap (fun b =>
        match ceW5 b with
        | some vs => vs
        | none => (b.filter (fun t => (ceW5 [t]).isSome)).map gW5)
    ∧ ([[], []] : List Vec) = (keptTexts ceW5 textsW5).map gW5
    ∧ List.Sublist (keptTexts ceW5 textsW5) textsW5
    ∧ ([[], []] : List Vec).length ≤ textsW5.length :=
  c5_embed_texts_batching ceW5 gW5
    (fun ts vs h => by
      by_cases hl : ts.length = 1
      · have hs : some (ts.map gW5) = some vs := by
          simpa [ceW5, hl] using h
        exact (Option.some.inj hs).symm
      · simp [ceW5, hl] at h)
    textsW5 [[], []] rfl

/-!
VectorStore (utils/qdrant_storage.py).  The Qdrant client is external:
uuid.uuid5(NAMESPACE_DNS, ·) is an abstract function parameter `uuid5`,
and the collection is modelled as the list of stored points, with the
engine's documented upsert semantics: a point overwrites any stored point
with the same id.
-/

/-- Payload stored with each point (the key "section" of the source
payload dict is called section_name here since section is a Lean
keyword). -/
structure QPayload where
  url : Str
  section_name : Str
  hierarchy_path : Str
  chunk_index : Nat
  token_count : Nat
  content : Str
  created_at : Str
  content_id : Str
deriving DecidableEq

/-- One Qdrant point (models.PointStruct). -/
structure PointStruct where
  id : Str
  vector : Vec
  payload : QPayload
deriving DecidableEq

/-- The payload built for a chunk (identical in save_chunk_to_qdrant and
save_chunks_batch). -/
def chunk_payload (c : ContentChunk) : QPayload :=
  { url := c.url
  , section_name := c.section_title
  , hierarchy_path := c.hierarchy_path
  , chunk_index := c.chunk_index
  , token_count := c.token_count
  , content := c.chunk_text
  , created_at := c.created_at
  , content_id := c.content_id }

/-- save_chunk_to_qdrant (utils/qdrant_storage.py): the point that the
single-chunk variant upserts; its id is uuid5(NAMESPACE_DNS, chunk.id). -/
def save_chunk_to_qdrant (uuid5 : Str → Str) (chunk : ContentChunk) (embedding : Vec) :
    PointStruct :=
  { id := uuid5 chunk.id, vector := embedding, payload := chunk_payload chunk }

/-- Vector store upsert: a point with an id already present overwrites
the stored point, otherwise it is inserted. -/
def upsert_point (store : List PointStruct) (p : PointStruct) : List PointStruct :=
  (store.filter (fun q => q.id ≠ p.id)) ++ [p]

/-- The size-mismatch message of save_chunks_batch. -/
def size_mismatch_msg (a b : Nat) : Str :=
  ("Number of chunks (").toList ++ Nat.toDigits 10 a
    ++ (") must match number of embeddings (").toList ++ Nat.toDigits 10 b ++ [')']

/-- save_chunks_batch (utils/qdrant_storage.py): raises ValueError when
the chunk and embedding counts differ, before building or upserting any
point; otherwise it builds one point per (chunk, embedding) pair — with
the same uuid5-derived id as the single-chunk variant — and upserts them
in one batch call. -/
def save_chunks_batch (uuid5 : Str → Str) (chunks : List ContentChunk)
    (embeddings : List Vec) : Except Str (List PointStruct) :=
  if chunks.length ≠ embeddings.length then
    Except.error (size_mismatch_msg chunks.length embeddings.length)
  else
    Except.ok ((chunks.zip embeddings).map (fun cv =>
      { id := uuid5 cv.1.id, vector := cv.2, payload := chunk_payload cv.1 }))

/-- Effect of a batch-save on the stored collection: the ok result's
points are upserted, an error performs no write. -/
def apply_batch (store : List PointStruct) (r : Except Str (List PointStruct)) :
    List PointStruct :=
  match r with
  | Except.error _ => store
  | Except.ok ps => ps.foldl upsert_point store

/-- C6: calling save_chunks_batch with differing numbers of chunks and
embeddings fails with the size-mismatch error before any I/O, and no
point is written to the store. -/
theorem c6_batch_size_mismatch (uuid5 : Str → Str) (chunks : List ContentChunk)
    (embeddings : List Vec) (h : chunks.length ≠ embeddings.length) :
    save_chunks_batch uuid5 chunks embeddings
        = Except.error (size_mismatch_msg chunks.length embeddings.length)
    ∧ ∀ store, apply_batch store (save_chunks_batch uuid5 chunks embeddings) = store := by
  have herr : save_chunks_batch uuid5 chunks embeddings
      = Except.error (size_mismatch_msg chunks.length embeddings.length) := by
    simp only [save_chunks_batch]
    rw [if_pos h]
  exact ⟨herr, fun store => by rw [herr]; rfl⟩

/-- A concrete chunk value used by the storage witnesses. -/
def chunkW : ContentChunk :=
  ContentChunk.mk (("cid_chunk_h_0").toList) (("cid").toList) (("A. B.").toList)
    0 2 [] [] 0 [] (("u").toList)

/-- Concrete witness for c6_batch_size_mismatch: 3 chunks and 2 vectors. -/
theorem c6_batch_size_mismatch_witness :
    save_chunks_batch (fun s => s) [chunkW, chunkW, chunkW] [[], []]
        = Except.error (size_mismatch_msg [chunkW, chunkW, chunkW].length
            ([[], []] : List Vec).length)
    ∧ ∀ store, apply_batch store
        (save_chunks_batch (fun s => s) [chunkW, chunkW, chunkW] [[], []]) = store :=
  c6_batch_size_mismatch (fun s => s) [chunkW, chunkW, chunkW] [[], []] (by decide)

theorem filter_upsert_count (store : List PointStruct) (p : PointStruct) :
    ((upsert_point store p).filter (fun q => q.id = p.id)).length = 1 := by
  simp only [upsert_point, List.filter_append]
  rw [List.filter_filter]
  have h0 : store.filter (fun a => decide (a.id = p.id) && decide (a.id ≠ p.id)) = [] := by
    apply List.filter_eq_nil_iff.2
    intro q hq
    simp
  rw [h0]
  simp

/-- C7: the stored point id is the deterministic function
uuid5(chunk.id), identical in save_chunk_to_qdrant and save_chunks_batch;
two chunks with equal logical id get the same point id, and after
upserting both (into any store) exactly one stored point carries that id
— in particular upserting them into an empty collection stores exactly
one point, the second upsert overwriting the first. -/
theorem c7_deterministic_point_identity (uuid5 : Str → Str) (c1 c2 : ContentChunk)
    (v1 v2 : Vec) (store : List PointStruct) (h : c1.id = c2.id) :
    (save_chunk_to_qdrant uuid5 c1 v1).id = uuid5 c1.id
    ∧ (∀ cs vs, save_chunks_batch uuid5 cs vs
        = if cs.length ≠ vs.length
          then Except.error (size_mismatch_msg cs.length vs.length)
          else Except.ok ((cs.zip vs).map (fun cv => save_chunk_to_qdrant uuid5 cv.1 cv.2)))
    ∧ (save_chunk_to_qdrant uuid5 c1 v1).id = (save_chunk_to_qdrant uuid5 c2 v2).id
    ∧ ((upsert_point (upsert_point store (save_chunk_to_qdrant uuid5 c1 v1))
          (save_chunk_to_qdrant uuid5 c2 v2)).filter
        (fun q => q.id = (save_chunk_to_qdrant uuid5 c2 v2).id)).length = 1
    ∧ (upsert_point (upsert_point [] (save_chunk_to_qdrant uuid5 c1 v1))
        (save_chunk_to_qdrant uuid5 c2 v2)).length = 1 := by
  have hid : (save_chunk_to_qdrant uuid5 c1 v1).id
      = (save_chunk_to_qdrant uuid5 c2 v2).id := by
    simp [save_chunk_to_qdrant, h]
  refine ⟨rfl, fun cs vs => rfl, hid,
    filter_upsert_count (upsert_point store (save_chunk_to_qdrant uuid5 c1 v1))
      (save_chunk_to_qdrant uuid5 c2 v2), ?_⟩
  simp [upsert_point, save_chunk_to_qdrant, h]

/-- Concrete witness for c7_deterministic_point_identity. -/
theorem c7_deterministic_point_identity_witness :
    (save_chunk_to_qdrant (fun s => s) chunkW []).id = (fun s : Str => s) chunkW.id
    ∧ (∀ cs vs, save_chunks_batch (fun s : Str => s) cs vs
        = if cs.length ≠ vs.length
          then Except.error (size_mismatch_msg cs.length vs.length)
          else Except.ok ((cs.zip vs).map (fun cv =>
            save_chunk_to_qdrant (fun s => s) cv.1 cv.2)))
    ∧ (save_chunk_to_qdrant (fun s => s) chunkW []).id
        = (save_chunk_to_qdrant (fun s => s) chunkW [] ).id
    ∧ ((upsert_point (upsert_point [] (save_chunk_to_qdrant (fun s => s) chunkW []))
          (save_chunk_to_qdrant (fun s => s) chunkW [])).filter
        (fun q => q.id = (save_chunk_to_qdrant (fun s => s) chunkW []).id)).length = 1
    ∧ (upsert_point (upsert_point [] (save_chunk_to_qdrant (fun s => s) chunkW []))
        (save_chunk_to_qdrant (fun s => s) chunkW [])).length = 1 :=
  c7_deterministic_point_identity (fun s => s) chunkW chunkW [] [] [] rfl

/-!
PipelineOrchestrator (main.py).  The text extractor and the Cohere
client are parameters; _generate_content_id's md5 hash (truncated to 12
hex chars) is the abstract parameter `md5hex12`.  The result records the
returned flag, the list of (chunk, embedding) pairs upserted to storage,
and the updated processed-content set; the outer `none` propagates a
non-terminating chunking loop.
-/

/-- _generate_content_id (main.py): "content_" + md5(url + content&lsqb;:100&rsqb;)
truncated to 12 hex characters. -/
def generate_content_id (md5hex12 : Str → Str) (url content : Str) : Str :=
  ("content_").toList ++ md5hex12 (url ++ content.take 100)

/-- process_single_url (main.py): extract → content check → content id →
idempotency check → chunk → embed all chunk texts as one call → require
the embeddings list to be truthy and of the same length as the chunk
list, else fail with nothing stored → upsert the zipped (chunk,
embedding) pairs → mark processed. -/
def process_single_url (md5hex8 md5hex12 : Str → Str) (size : Nat) (frac : ℚ) (fuel : Nat)
    (extractor : Str → Option (Str × Str × Str))
    (clientEmbed : List Str → Option (List Vec))
    (now : Str) (processed : List Str) (url : Str) :
    Option (Bool × List (ContentChunk × Vec) × List Str) :=
  match extractor url with
  | none => some (false, [], processed)
  | some (title, content, hierarchy_path) =>
    if content.isEmpty then some (false, [], processed)
    else
      let content_id := generate_content_id md5hex12 url content
      if content_id ∈ processed then some (true, [], processed)
      else
        match chunk_text md5hex8 size frac fuel content content_id url title hierarchy_path
            now with
        | none => none
        | some chunks =>
          if chunks.isEmpty then some (false, [], processed)
          else
            match embed_texts clientEmbed (chunks.map ContentChunk.chunk_text) with
            | none => some (false, [], processed)
            | some embeddings =>
              if embeddings.isEmpty ∨ embeddings.length ≠ chunks.length then
                some (false, [], processed)
              else
                some (true, chunks.zip embeddings, content_id :: processed)

/-- C1: when the embeddings returned for the chunk texts are missing
(falsy) or their count differs from the chunk count, the URL is treated
as failed and zero chunks are upserted; and on every path, either nothing
is upserted or the upserts are exactly the chunks zipped with an
equal-length embedding list (each chunk paired with the embedding at its
own position). -/
theorem c1_embedding_chunk_alignment
    (md5hex8 md5hex12 : Str → Str) (size : Nat) (frac : ℚ) (fuel : Nat)
    (extractor : Str → Option (Str × Str × Str))
    (clientEmbed : List Str → Option (List Vec))
    (now : Str) (processed : List Str) (url : Str)
    (title content hierarchy_path : Str) (chunks : List ContentChunk)
    (hex : extractor url = some (title, content, hierarchy_path))
    (hc : ¬content.isEmpty)
    (hnp : generate_content_id md5hex12 url content ∉ processed)
    (hch : chunk_text md5hex8 size frac fuel content
        (generate_content_id md5hex12 url content) url title hierarchy_path now = some chunks)
    (hne : ¬chunks.isEmpty) :
    ((embed_texts clientEmbed (chunks.map ContentChunk.chunk_text) = none
       ∨ ∃ es, embed_texts clientEmbed (chunks.map ContentChunk.chunk_text) = some es
           ∧ (es.isEmpty ∨ es.length ≠ chunks.length)) →
      process_single_url md5hex8 md5hex12 size frac fuel extractor clientEmbed now processed
        url = some (false, [], processed))
    ∧ (∀ ok ups proc,
        process_single_url md5hex8 md5hex12 size frac fuel extractor clientEmbed now
          processed url = some (ok, ups, proc) →
        ups = [] ∨ ∃ es, embed_texts clientEmbed (chunks.map ContentChunk.chunk_text)
          = some es ∧ es.length = chunks.length ∧ ups = chunks.zip es) := by
  have hred : process_single_url md5hex8 md5hex12 size frac fuel extractor clientEmbed now
      processed url
      = (match embed_texts clientEmbed (chunks.map ContentChunk.chunk_text) with
        | none => some (false, [], processed)
        | some embeddings =>
          if embeddings.isEmpty ∨ embeddings.length ≠ chunks.length then
            some (false, [], processed)
          else
            some (true, chunks.zip embeddings,
              generate_content_id md5hex12 url content :: processed)) := by
    simp only [process_single_url, hex]
    rw [if_neg hc, if_neg hnp, hch]
    rw [show (match some chunks with
        | none => (none : Option (Bool × List (ContentChunk × Vec) × List Str))
        | some chunks =>
          if chunks.isEmpty then some (false, [], processed)
          else
            match embed_texts clientEmbed (chunks.map ContentChunk.chunk_text) with
            | none => some (false, [], processed)
            | some embeddings =>
              if embeddings.isEmpty ∨ embeddings.length ≠ chunks.length then
                some (false, [], processed)
              else
                some (true, chunks.zip embeddings,
                  generate_content_id md5hex12 url content :: processed))
        = (if chunks.isEmpty then some (false, [], processed)
          else
            match embed_texts clientEmbed (chunks.map ContentChunk.chunk_text) with
            | none => some (false, [], processed)
            | some embeddings =>
              if embeddings.isEmpty ∨ embeddings.length ≠ chunks.length then
                some (false, [], processed)
              else
                some (true, chunks.zip embeddings,
                  generate_content_id md5hex12 url content :: processed)) from rfl]
    rw [if_neg hne]
  constructor
  · intro hbad
    rw [hred]
    rcases hbad with hnone | ⟨es, hes, hmis⟩
    · rw [hnone]
    · rw [hes]
      have : (es.isEmpty ∨ es.length ≠ chunks.length) := by
        rcases hmis with h1 | h1
        · exact Or.inl h1
        · exact Or.inr h1
      simp only [if_pos this]
  · intro ok ups proc h
    rw [hred] at h
    rcases hemb : embed_texts clientEmbed (chunks.map ContentChunk.chunk_text) with _ | es
    · rw [hemb] at h
      obtain hh := Option.some.inj h
      exact Or.inl (congrArg (fun x => x.2.1) hh).symm
    · rw [hemb] at h
      have h' : (if es.isEmpty ∨ es.length ≠ chunks.length then
            (some (false, [], processed)
              : Option (Bool × List (ContentChunk × Vec) × List Str))
          else some (true, chunks.zip es,
            generate_content_id md5hex12 url content :: processed))
          = some (ok, ups, proc) := h
      by_cases hmis : (es.isEmpty ∨ es.length ≠ chunks.length)
      · rw [if_pos hmis] at h'
        obtain hh := Option.some.inj h'
        exact Or.inl (congrArg (fun x => x.2.1) hh).symm
      · rw [if_neg hmis] at h'
        obtain hh := Option.some.inj h'
        push_neg at hmis
        exact Or.inr ⟨es, rfl, hmis.2, (congrArg (fun x => x.2.1) hh).symm⟩

/-- An extractor returning a fixed page for concrete evaluations. -/
def extractorW : Str → Option (Str × Str × Str) := fun _ => some ([], ("A. B.").toList, [])

/-- A provider whose every call raises (embed_texts then returns some &lsqb;&rsqb;
via the per-item fallback, a falsy embeddings list). -/
def ceNone : List Str → Option (List Vec) := fun _ => none

/-- The single chunk built for the page of extractorW. -/
def chunksW1 : List ContentChunk :=
  [ContentChunk.mk (("content_h_chunk_h_0").toList) (("content_h").toList)
    (("A. B.").toList) 0 2 [] [] 0 [] (("u").toList)]

/-- Concrete witness for c1_embedding_chunk_alignment. -/
theorem c1_embedding_chunk_alignment_witness :
    ((embed_texts ceNone (chunksW1.map ContentChunk.chunk_text) = none
       ∨ ∃ es, embed_texts ceNone (chunksW1.map ContentChunk.chunk_text) = some es
           ∧ (es.isEmpty ∨ es.length ≠ chunksW1.length)) →
      process_single_url hashW hashW 2 (mkRat 0 1) 3 extractorW ceNone [] [] (("u").toList)
        = some (false, [], []))
    ∧ (∀ ok ups proc,
        process_single_url hashW hashW 2 (mkRat 0 1) 3 extractorW ceNone [] []
          (("u").toList) = some (ok, ups, proc) →
        ups = [] ∨ ∃ es, embed_texts ceNone (chunksW1.map ContentChunk.chunk_text)
          = some es ∧ es.length = chunksW1.length ∧ ups = chunksW1.zip es) :=
  c1_embedding_chunk_alignment hashW hashW 2 (mkRat 0 1) 3 extractorW ceNone [] []
    (("u").toList) [] (("A. B.").toList) [] chunksW1 rfl (by decide) (by decide) (by decide)
    (by decide)

/-!
RetrievalValidator (utils/validator.py).  The Cohere client, the Qdrant
search call and the scroll call are parameters.  The floating-point norm
and cosine-similarity statistics of validate_embedding_quality do not
affect is_valid and are outside the shallow embedding; the fields that
drive control flow (embedding count, dimensionality, is_valid) are
modelled exactly.
-/

/-- Result dict of validate_embedding_quality: either the error dict or
the results dict with embedding_count, dimensions and is_valid. -/
inductive EmbedQualityResult where
  | err : Str → EmbedQualityResult
  | ok : Nat → Nat → Bool → EmbedQualityResult
deriving DecidableEq

/-- np.array(embeddings).shape&lsqb;1&rsqb;: defined only when the embedding
matrix is rectangular; a ragged input raises (caught by the surrounding
try/except). -/
def allSameLength : List Vec → Option Nat
  | [] => none
  | v :: vs => if vs.all (fun w => w.length = v.length) then some v.length else none

/-- validate_embedding_quality (utils/validator.py): embeds the test
texts; any falsy or count-mismatched embeddings list gives the error
dict; otherwise is_valid is (dimensions == 1024), the hardcoded
validation constant. -/
def validate_embedding_quality (clientEmbed : List Str → Option (List Vec))
    (test_texts : List Str) : EmbedQualityResult :=
  if test_texts.isEmpty then EmbedQualityResult.err (("No test texts provided").toList)
  else
    match embed_texts clientEmbed test_texts with
    | none => EmbedQualityResult.err (("Mismatch in embeddings count").toList)
    | some embeddings =>
      if embeddings.isEmpty ∨ embeddings.length ≠ test_texts.length then
        EmbedQualityResult.err (("Mismatch in embeddings count").toList)
      else
        match allSameLength embeddings with
        | none => EmbedQualityResult.err (("ragged embedding matrix").toList)
        | some dimensions =>
          EmbedQualityResult.ok embeddings.length dimensions (dimensions == 1024)

/-- results&lsqb;"embedding_validation"&rsqb;.get("is_valid", False). -/
def getIsValid : EmbedQualityResult → Bool
  | EmbedQualityResult.err _ => false
  | EmbedQualityResult.ok _ _ v => v

/-- get_model_info (utils/embedder.py): declared model metadata; the
declared dimensionality is 768. -/
structure ModelInfo where
  model_name : Str
  dimensions : Nat
  max_batch : Nat
deriving DecidableEq

/-- The dict returned by Embedder.get_model_info. -/
def get_model_info : ModelInfo :=
  { model_name := ("embed-multilingual-v2.0").toList
  , dimensions := 768
  , max_batch := max_batch_size }

/-- embed_single_text (utils/embedder.py): first vector of a
single-text call, None when the call raises or returns nothing. -/
def embed_single_text (clientEmbed : List Str → Option (List Vec)) (t : Str) : Option Vec :=
  match clientEmbed [t] with
  | some (v :: _) => some v
  | some [] => none
  | none => none

/-- One search result row as consumed by the validator and the answer
endpoint (payload keys url/section/hierarchy_path plus content, score). -/
structure SChunk where
  url : Str
  section_name : Str
  hierarchy_path : Str
  content : Str
  score : ℚ
deriving DecidableEq

/-- Result dict of validate_retrieval_accuracy (query_count,
successful_retrievals, average_recall), or its error dict. -/
inductive RetrievalOutcome where
  | err : Str → RetrievalOutcome
  | ok : Nat → Nat → ℚ → RetrievalOutcome
deriving DecidableEq

/-- Python substring containment (needle in hay). -/
def pyInStr (needle hay : Str) : Bool :=
  (List.range (hay.length + 1)).any (fun i => (hay.drop i).take needle.length == needle)

/-- Accuracy for one query of validate_retrieval_accuracy (the Python
substring test expected_url in url, modelled by pyInStr). -/
def query_accuracy (expected_url : Str) (similar : List SChunk) : ℚ :=
  match similar with
  | [] => 0
  | top :: _ =>
    if pyInStr expected_url top.url then 1
    else if similar.any (fun c => pyInStr expected_url c.url) then 1 else 0

/-- validate_retrieval_accuracy (utils/validator.py): embeds each query
and searches top-5; queries whose embedding is falsy or whose search is
empty are skipped; accuracy metrics exist only when expected URLs are
supplied; average_recall is the mean accuracy (0 with no metrics). -/
def validate_retrieval_accuracy (clientEmbed : List Str → Option (List Vec))
    (search : Vec → Nat → List SChunk) (test_queries : List Str)
    (expected_urls : Option (List Str)) : RetrievalOutcome :=
  if test_queries.isEmpty then
    RetrievalOutcome.err (("No test queries provided").toList)
  else
    let rows := test_queries.map (fun q =>
      match embed_single_text clientEmbed q with
      | none => none
      | some qe => if qe.isEmpty then none else
          match search qe 5 with
          | [] => none
          | top :: rest => some (top :: rest))
    let successful := (rows.filterMap id).length
    let metrics :=
      match expected_urls with
      | none => ([] : List ℚ)
      | some exps =>
        ((rows.zip (exps.map Option.some ++ List.replicate rows.length Option.none)).filterMap
          (fun re =>
            match re with
            | (some similar, some exp) => some (query_accuracy exp similar)
            | _ => none))
    RetrievalOutcome.ok test_queries.length successful
      (if metrics.isEmpty then 0 else metrics.sum / metrics.length)

/-- The comprehensive-validation result dict (timestamp omitted; the
error dict of the outer except carries only the overall_status). -/
structure CompResult where
  collection_exists : Bool
  total_points : Nat
  embedding_validation : EmbedQualityResult
  retrieval_validation : Option RetrievalOutcome
  overall_status : Str
deriving DecidableEq

/-- Outcome of run_comprehensive_validation: the normal result dict, or
the except-branch error dict with overall_status "error". -/
inductive CompOutcome where
  | err : Str → CompOutcome
  | ok : CompResult → CompOutcome
deriving DecidableEq

/-- results&lsqb;"overall_status"&rsqb; of either outcome shape. -/
def overallStatus : CompOutcome → Str
  | CompOutcome.err _ => ("error").toList
  | CompOutcome.ok r => r.overall_status

/-- The fixed sample sentences of run_comprehensive_validation. -/
def sample_texts : List Str :=
  [("Physical AI and Humanoid Robotics fundamentals").toList,
   ("Machine learning applications in robotics").toList,
   ("Sensor fusion for robotic perception").toList,
   ("Motion planning algorithms for humanoid robots").toList]

/-- run_comprehensive_validation (utils/validator.py): reads collection
existence and point count (collaborator calls that degrade internally),
samples one stored point via scroll when the collection has points — the
scroll call is the only one in the body whose exception reaches the outer
except and yields overall_status "error" — runs the self-retrieval test
on the sampled content, runs the embedding-quality check on the fixed
sample texts, and sets overall_status "success" iff its is_valid. -/
def run_comprehensive_validation (clientEmbed : List Str → Option (List Vec))
    (search : Vec → Nat → List SChunk) (coll_exists : Bool) (count_points : Nat)
    (scroll : Except Str (List Str)) : CompOutcome :=
  let total := if coll_exists then count_points else 0
  let retrieval : Except Str (Option RetrievalOutcome) :=
    if coll_exists ∧ 0 < total then
      match scroll with
      | Except.error e => Except.error e
      | Except.ok [] => Except.ok none
      | Except.ok (content :: _) =>
        if content.isEmpty then Except.ok none
        else Except.ok (some (validate_retrieval_accuracy clientEmbed search
          [content.take 200] none))
    else Except.ok none
  match retrieval with
  | Except.error _ => CompOutcome.err (("error").toList)
  | Except.ok retr =>
    let eq := validate_embedding_quality clientEmbed sample_texts
    CompOutcome.ok
      { collection_exists := coll_exists
      , total_points := total
      , embedding_validation := eq
      , retrieval_validation := retr
      , overall_status := if getIsValid eq then ("success").toList else ("failed").toList }

/-- A provider returning 768-dimensional vectors — the dimensionality
get_model_info declares — for every text. -/
def ceRef : List Str → Option (List Vec) :=
  fun ts => some (ts.map (fun _ => List.replicate 768 (mkRat 0 1)))

set_option maxRecDepth 8000 in
/-- C4 counterexample: with embeddings whose observed dimensionality 768
equals the provider's declared dimensionality (get_model_info.dimensions
= 768), validate_embedding_quality still reports is_valid = false,
because is_valid is the hardcoded test dimensions == 1024; so is_valid
does not hold exactly when the observed dimensionality equals the
declared one. -/
theorem c4_counterexample :
    validate_embedding_quality ceRef sample_texts = EmbedQualityResult.ok 4 768 false
    ∧ get_model_info.dimensions = 768
    ∧ ¬(getIsValid (validate_embedding_quality ceRef sample_texts) = true
        ↔ (768 : Nat) = get_model_info.dimensions) := by
  refine ⟨by decide, rfl, by decide⟩

/-- C4 (amended): validate_embedding_quality reports is_valid exactly
when the observed dimensionality equals the hardcoded constant 1024 —
which differs from get_model_info's declared 768 — and
run_comprehensive_validation returns overall_status "success" iff the
embedding-quality check's is_valid holds, "failed" otherwise, and
"error" when the scroll call raises (the only exception the outer except
can see). -/
theorem c4_amended_validation_status (clientEmbed : List Str → Option (List Vec))
    (search : Vec → Nat → List SChunk) (coll_exists : Bool) (count_points : Nat)
    (scroll : Except Str (List Str)) (texts : List Str) (c d : Nat) (v : Bool) :
    (validate_embedding_quality clientEmbed texts = EmbedQualityResult.ok c d v →
      (v = true ↔ d = 1024))
    ∧ get_model_info.dimensions = 768 ∧ (768 : Nat) ≠ 1024
    ∧ overallStatus (run_comprehensive_validation clientEmbed search coll_exists
        count_points scroll)
      = (if coll_exists ∧ 0 < count_points ∧ ¬(scroll.isOk = true) then ("error").toList
         else if getIsValid (validate_embedding_quality clientEmbed sample_texts) then
           ("success").toList
         else ("failed").toList) := by
  refine ⟨?_, rfl, by norm_num, ?_⟩
  · intro h
    simp only [validate_embedding_quality] at h
    split at h
    · simp at h
    · split at h
      · simp at h
      · split at h
        · simp at h
        · split at h
          · simp at h
          · simp only [EmbedQualityResult.ok.injEq] at h
            obtain ⟨-, h2, h3⟩ := h
            subst h2
            rw [← h3]
            exact beq_iff_eq
  · rcases scroll with e | pts
    · have herr : (Except.error e : Except Str (List Str)).isOk = false := rfl
      by_cases hvc : coll_exists ∧ 0 < count_points
      · have htot : (if coll_exists then count_points else 0) = count_points := by
          rw [if_pos hvc.1]
        simp only [run_comprehensive_validation, htot, if_pos hvc]
        rw [if_pos ⟨hvc.1, hvc.2, by simp [herr]⟩]
        rfl
      · have hcond : ¬(coll_exists ∧ 0 < count_points
            ∧ ¬((Except.error e : Except Str (List Str)).isOk = true)) := by
          intro hh
          exact hvc ⟨hh.1, hh.2.1⟩
        rw [if_neg hcond]
        simp only [run_comprehensive_validation]
        rw [if_neg (by
          intro hh
          refine hvc ⟨hh.1, ?_⟩
          rcases hh with ⟨h1, h2⟩
          rw [if_pos h1] at h2
          exact h2)]
        rfl
    · have hok : ((Except.ok pts : Except Str (List Str)).isOk = true) := rfl
      rw [if_neg (by
        intro hh
        exact hh.2.2 hok)]
      simp only [run_comprehensive_validation]
      by_cases hvc : coll_exists ∧ 0 < (if coll_exists then count_points else 0)
      · rw [if_pos hvc]
        cases pts with
        | nil => rfl
        | cons content rest =>
          cases content with
          | nil => rfl
          | cons ch ct => rfl
      · rw [if_neg hvc]
        rfl

set_option maxRecDepth 8000 in
/-- Witness for C4 (amended) at a concrete instance: a collection that
does not exist, the 768-dimensional reference provider, and an empty
scroll; the overall status is "failed" because is_valid (dims == 1024)
fails on the observed 768. -/
theorem c4_amended_validation_status_witness :
    overallStatus (run_comprehensive_validation ceRef (fun _ _ => []) false 0
      (Except.ok [])) = ("failed").toList := by
  have h := (c4_amended_validation_status ceRef (fun _ _ => []) false 0
    (Except.ok []) sample_texts 4 768 false).2.2.2
  rw [h]
  rw [if_neg (by simp)]
  rw [if_neg (by decide)]

/-- One source reference of the ask endpoint's response (payload keys
url/section/hierarchy_path plus similarity score). -/
structure Source where
  url : Str
  section_name : Str
  hierarchy_path : Str
  similarity_score : ℚ
deriving DecidableEq

/-- RAGResponse of api/main.py. -/
structure RAGResponse where
  query : Str
  answer : Str
  sources : List Source
  conversation_id : Str
deriving DecidableEq

/-- One row logged by neon_logger.log_interaction (pool/url handling and
the timestamp column are the collaborator's; metadata carries the
timestamp string, context length and source count when present). -/
structure Interaction where
  conversation_id : Str
  user_message : Str
  bot_response : Str
  sources : List Source
  user_ip : Option Str
  metadata : Option (Str × Nat × Nat)
deriving DecidableEq

/-- The canned no-relevant-information answer of the ask endpoint. -/
def noInfoAnswer : Str :=
  ("I couldn").toList ++ [Char.ofNat 39]
    ++ ("t find relevant information in the Physical AI Humanoid Robotics book to answer your question.").toList

/-- Python `x or y` on an optional string: y when x is None or empty. -/
def pyOrDefault (cid : Option Str) (fresh : Str) : Str :=
  match cid with
  | none => fresh
  | some s => if s.isEmpty then fresh else s

/-- The f-string prompt sent to the Cohere chat call. -/
def askPrompt (context message : Str) : Str :=
  ("\n        Based on the following context from the Physical AI Humanoid Robotics book, please answer the question.\n\n        Context:\n        ").toList
    ++ context
    ++ ("\n\n        Question: ").toList ++ message
    ++ ("\n\n        Answer:\n        ").toList

/-- ask_question (api/main.py): picks the conversation id (request's, or
the fresh uuid4 when absent or empty), embeds the query (falsy result —
None or empty vector — raises HTTP 500 without logging), searches the
top 5 similar chunks; with no hits it returns the canned answer with
empty sources and logs one interaction with sources=&lsqb;&rsqb;;
otherwise it builds context and sources from the content-nonempty
chunks, asks the chat collaborator with the combined prompt, strips the
reply, and logs one interaction carrying the sources and metadata.
Result: the HTTP outcome paired with the updated conversation log. -/
def ask_question (clientEmbed : List Str → Option (List Vec))
    (search : Vec → Nat → List SChunk) (chat : Str → Str)
    (fresh_id now : Str) (client_ip : Option Str) (log : List Interaction)
    (message : Str) (cid : Option Str) :
    Except Nat RAGResponse × List Interaction :=
  let conversation_id := pyOrDefault cid fresh_id
  match embed_single_text clientEmbed message with
  | none => (Except.error 500, log)
  | some qe =>
    if qe.isEmpty then (Except.error 500, log)
    else
      let similar_chunks := search qe 5
      if similar_chunks.isEmpty then
        let response : RAGResponse :=
          { query := message, answer := noInfoAnswer, sources := []
          , conversation_id := conversation_id }
        (Except.ok response,
         log ++ [{ conversation_id := conversation_id, user_message := message
                 , bot_response := noInfoAnswer, sources := [], user_ip := client_ip
                 , metadata := none }])
      else
        let kept := similar_chunks.filter (fun ch => !ch.content.isEmpty)
        let context := pyJoin (("\n\n").toList) (kept.map (fun ch => ch.content))
        let sources := kept.map (fun ch =>
          { url := ch.url, section_name := ch.section_name
          , hierarchy_path := ch.hierarchy_path
          , similarity_score := ch.score : Source })
        let answer := pyStrip (chat (askPrompt context message))
        (Except.ok { query := message, answer := answer, sources := sources
                   , conversation_id := conversation_id },
         log ++ [{ conversation_id := conversation_id, user_message := message
                 , bot_response := answer, sources := sources, user_ip := client_ip
                 , metadata := some (now, context.length, sources.length) }])

/-- C9: whenever the query embedding succeeds with a nonempty vector and
the top-5 search returns no chunks, the ask endpoint returns the
canned no-relevant-information answer with sources = &lsqb;&rsqb;, and
exactly one interaction is appended to the conversation log, itself with
sources = &lsqb;&rsqb;. -/
theorem c9_no_chunks_canned_answer
    (clientEmbed : List Str → Option (List Vec)) (search : Vec → Nat → List SChunk)
    (chat : Str → Str) (fresh_id now : Str) (client_ip : Option Str)
    (log : List Interaction) (message : Str) (cid : Option Str) (qe : Vec)
    (hembed : embed_single_text clientEmbed message = some qe)
    (hne : qe ≠ [])
    (hsearch : search qe 5 = []) :
    ask_question clientEmbed search chat fresh_id now client_ip log message cid
      = (Except.ok ⟨message, noInfoAnswer, [], pyOrDefault cid fresh_id⟩,
         log ++ [⟨pyOrDefault cid fresh_id, message, noInfoAnswer, [],
                  client_ip, none⟩]) := by
  have h1 : qe.isEmpty = false := by
    cases qe with
    | nil => exact absurd rfl hne
    | cons a l => rfl
  simp only [ask_question, hembed, h1, hsearch, List.isEmpty_nil, Bool.false_eq_true,
    if_false, if_true]

/-- Witness for C9: a one-vector embedder and an empty search index on
the query "q". -/
theorem c9_no_chunks_canned_answer_witness :
    ask_question (fun _ => some [[mkRat 1 1]]) (fun _ _ => []) (fun _ => [])
      (("f").toList) (("t").toList) none [] (("q").toList) none
      = (Except.ok ⟨("q").toList, noInfoAnswer, [], ("f").toList⟩,
         [⟨("f").toList, ("q").toList, noInfoAnswer, [], none, none⟩]) :=
  c9_no_chunks_canned_answer (fun _ => some [[mkRat 1 1]]) (fun _ _ => [])
    (fun _ => []) (("f").toList) (("t").toList) none [] (("q").toList) none
    [mkRat 1 1] rfl (by simp) rfl
